import Mathlib

/-!
Verification of the hierarchical_pathfinding crate (HPA* over a 2D grid).

The definitions below are a shallow embedding of the Rust sources:
grid A* and Dijkstra (src/grid/a_star.rs, src/grid/dijkstra.rs), the generic
path and path-segment types (src/path/generic_path.rs, src/generics/path.rs,
src/path_cache/path_segment.rs), the node list (src/graph/node_list.rs), the
abstract-graph A* (src/graph/a_star.rs), the abstract path iterator
(src/path_cache/abstract_path.rs), the chunk layer (src/path_cache/chunk.rs)
and the path cache itself (src/path_cache.rs, sequential code path).

Modelling conventions, used consistently below:
- usize is modelled as Nat; the only place where wrap-around semantics can
  matter is the subtraction in path reversal, which is modelled with explicit
  arithmetic modulo 2 to the 64th. Additions of costs are modelled exactly on
  Nat (an overflowing usize addition would abort in the source).
- isize is modelled as Int.
- HashMap and HashSet are modelled as insertion-ordered association lists
  and duplicate-free lists; insertion replaces an existing key in place.
  Iteration order of the fnv hash containers in the source is unspecified;
  the model iterates in insertion order.
- The Rust BinaryHeap pops a least element of the comparison order used by
  the search elements; the order among tied elements is unspecified in the
  source, and the model pops the first of the tied elements.
- loops are modelled with an explicit fuel parameter; exhausted fuel yields
  none, which corresponds to a source run that has not finished within the
  given number of iterations.
- A panic in the source (index out of bounds, expect, explicit panic) is
  modelled as the value none, except where noted.
-/

namespace HPA


/-- usize modulus: 2 to the 64th. -/

def USIZE : Nat := 2 ^ 64

/-- Wrapping usize addition. -/

def wrapAdd (a b : Nat) : Nat := (a + b) % USIZE

/-- Wrapping usize subtraction. -/

def wrapSub (a b : Nat) : Nat := (a + (USIZE - b % USIZE)) % USIZE

/-- A Point on the grid, type Point = (usize, usize) in src/lib.rs. -/

abbrev Point : Type := Nat × Nat

/-- Cost of traversal, type Cost = usize (src/path/mod.rs). -/

abbrev Cost : Type := Nat

/-- Generic path with total cost and an O(1) reversal flag
(struct Path of src/path/generic_path.rs; src/generics/path.rs is the
same data type with the same operations). -/

structure Path (α : Type) where
  path : List α
  cost : Cost
  is_reversed : Bool
deriving DecidableEq, Repr

namespace Path

/-- Path::new. -/

def new {α : Type} (path : List α) (cost : Cost) : Path α :=
  { path := path, cost := cost, is_reversed := false }

/-- Path::from_slice. -/

def from_slice {α : Type} (path : List α) (cost : Cost) : Path α :=
  { path := path, cost := cost, is_reversed := false }

/-- Path::len. -/

def len {α : Type} (p : Path α) : Nat := p.path.length

/-- Path::is_empty. -/

def is_empty {α : Type} (p : Path α) : Bool := p.path.isEmpty

/-- Path::reversed: same point buffer, flipped flag, cost adjusted by
cost - start_cost + end_cost in usize arithmetic. -/

def reversed {α : Type} (p : Path α) (start_cost end_cost : Cost) : Path α :=
  { path := p.path
    cost := wrapAdd (wrapSub p.cost start_cost) end_cost
    is_reversed := !p.is_reversed }

/-- The Index impl of Path: an index is counted from the back when the
path is reversed. Out-of-range access aborts in the source; the model
returns the default element. -/

def index {α : Type} [Inhabited α] (p : Path α) (i : Nat) : α :=
  if p.is_reversed then p.path.getD (p.path.length - i - 1) default
  else p.path.getD i default

/-- Path::as_vec (also the result of collecting Path::iter): the stored
points, in reverse order when the reversal flag is set. -/

def as_vec {α : Type} (p : Path α) : List α :=
  if p.is_reversed then p.path.reverse else p.path

end Path

/-- An edge payload: either a fully materialized path or a summary
(enum PathSegment of src/path_cache/path_segment.rs; the variant named
Unknown there is the summary form). -/

inductive PathSegment : Type where
  | known : Path Point → PathSegment
  | unknown : (start : Point) → (stop : Point) → (cost : Cost) → (len : Nat) → PathSegment
deriving DecidableEq, Repr

namespace PathSegment

/-- PathSegment::new. -/

def new (path : Path Point) (known_flag : Bool) : PathSegment :=
  if known_flag then .known path
  else .unknown (path.index 0) (path.index (path.len - 1)) path.cost path.len

/-- PathSegment::cost. -/

def cost : PathSegment → Cost
  | .known p => p.cost
  | .unknown _ _ c _ => c

/-- PathSegment::len. -/

def len : PathSegment → Nat
  | .known p => p.len
  | .unknown _ _ _ n => n

/-- PathSegment::start. -/

def start : PathSegment → Point
  | .known p => p.index 0
  | .unknown s _ _ _ => s

/-- PathSegment::end. -/

def stop : PathSegment → Point
  | .known p => p.index (p.len - 1)
  | .unknown _ e _ _ => e

/-- PathSegment::reversed. The Known case delegates to Path::reversed
(cost - start_cost + end_cost); the summary case computes
cost + end_cost - start_cost, both in usize arithmetic. -/

def reversed (seg : PathSegment) (start_cost end_cost : Cost) : PathSegment :=
  match seg with
  | .known p => .known (p.reversed start_cost end_cost)
  | .unknown s e c n => .unknown e s (wrapSub (wrapAdd c end_cost) start_cost) n

end PathSegment

/-- Association list lookup, modelling HashMap::get. -/

def alistGet {K V : Type} [DecidableEq K] : List (K × V) → K → Option V
  | [], _ => none
  | (k, v) :: rest, key => if k = key then some v else alistGet rest key

/-- Association list insertion, modelling HashMap::insert: replaces the
value of an existing key in place, otherwise appends the binding. -/

def alistInsert {K V : Type} [DecidableEq K] : List (K × V) → K → V → List (K × V)
  | [], key, val => [(key, val)]
  | (k, v) :: rest, key, val =>
    if k = key then (key, val) :: rest else (k, v) :: alistInsert rest key val

/-- Duplicate-free list insertion, modelling HashSet::insert. -/

def setInsert {A : Type} [DecidableEq A] (l : List A) (x : A) : List A :=
  if x ∈ l then l else l ++ [x]

/-- Removal from a duplicate-free list, modelling HashSet::remove. -/

def setRemove {A : Type} [DecidableEq A] (l : List A) (x : A) : List A :=
  l.filter (fun y => if y = x then false else true)

/-- Pop a least element with respect to the given key, together with the
remaining elements in their original order. The Rust BinaryHeap used by the
searches is a min-heap in its comparison key; the order in which it pops
tied elements is unspecified, and this model pops the first tied element. -/

def popMinBy {A : Type} (key : A → Nat) : List A → Option (A × List A)
  | [] => none
  | x :: xs =>
    match popMinBy key xs with
    | none => some (x, [])
    | some (m, rest) => if key x ≤ key m then some (x, xs) else some (m, x :: rest)

/-- The Neighborhood trait (src/neighbors.rs): a neighbor enumeration and a
distance heuristic. -/

structure Neighborhood : Type where
  get_all_neighbors : Point → List Point
  heuristic : Point → Point → Nat

/-- In-bounds neighbors of a point produced from a fixed offset list, in the
order of the offsets (the iterator chains of src/neighbors.rs). -/

def offsetNeighbors (width height : Nat) (offsets : List (Int × Int)) (point : Point) :
    List Point :=
  (offsets.map (fun d => ((point.1 : Int) + d.1, (point.2 : Int) + d.2))).filterMap
    (fun q =>
      if 0 ≤ q.1 ∧ 0 ≤ q.2 ∧ q.1.toNat < width ∧ q.2.toNat < height then
        some (q.1.toNat, q.2.toNat)
      else none)

/-- Absolute difference on Nat, written as the two-branch comparison used by
the heuristic implementations in src/neighbors.rs. -/

def absDiff (a b : Nat) : Nat := if b > a then b - a else a - b

/-- ManhattanNeighborhood: cardinal neighbors, taxicab heuristic. -/

def ManhattanNeighborhood (width height : Nat) : Neighborhood :=
  { get_all_neighbors := offsetNeighbors width height [(0, -1), (1, 0), (0, 1), (-1, 0)]
    heuristic := fun point goal => absDiff point.1 goal.1 + absDiff point.2 goal.2 }

/-- MooreNeighborhood: cardinal and diagonal neighbors, Chebyshev heuristic. -/

def MooreNeighborhood (width height : Nat) : Neighborhood :=
  { get_all_neighbors := offsetNeighbors width height
      [(0, -1), (1, -1), (1, 0), (1, 1), (0, 1), (-1, 1), (-1, 0), (-1, -1)]
    heuristic := fun point goal => max (absDiff point.1 goal.1) (absDiff point.2 goal.2) }

/-- The visited map of the grid searches: position to (best cost, parent). -/

abbrev GridVisited : Type := List (Point × Nat × Point)

/-- The open heap of grid A*: entries HeuristicElement(id, cost, cost + h). -/

abbrev GridHeap : Type := List (Point × Nat × Nat)

/-- One iteration of the neighbor loop of grid A* (src/grid/a_star.rs,
body of the for loop over all_neighbors): skip invalid neighbors and
non-goal walls, then relax the visited entry and push an open entry when
the neighbor needs a visit. -/

def gridAStarVisit (nb : Neighborhood) (valid : Point → Bool) (get_cost : Point → Int)
    (goal current_id : Point) (other_cost : Nat)
    (st : GridVisited × GridHeap) (other_id : Point) : GridVisited × GridHeap :=
  if !(valid other_id) then st
  else if get_cost other_id < 0 ∧ other_id ≠ goal then st
  else
    match alistGet st.1 other_id with
    | some (prev_cost, _) =>
      if prev_cost > other_cost then
        (alistInsert st.1 other_id (other_cost, current_id),
         st.2 ++ [(other_id, other_cost, other_cost + nb.heuristic other_id goal)])
      else st
    | none =>
      (alistInsert st.1 other_id (other_cost, current_id),
       st.2 ++ [(other_id, other_cost, other_cost + nb.heuristic other_id goal)])

/-- The while-let loop of grid A* (src/grid/a_star.rs): pop a least-f
element, stop at the goal, skip stale entries (a popped cost below the best
recorded cost aborts in the source and is modelled as none), skip expansion
of wall cells, and otherwise expand all neighbors. -/

def gridAStarLoop (nb : Neighborhood) (valid : Point → Bool) (get_cost : Point → Int)
    (goal : Point) : Nat → GridVisited → GridHeap → Option GridVisited
  | 0, _, _ => none
  | fuel + 1, visited, heap =>
    match popMinBy (fun e => e.2.2) heap with
    | none => some visited
    | some ((current_id, current_cost, _), heap1) =>
      if current_id = goal then some visited
      else
        match alistGet visited current_id with
        | none => none
        | some (best, _) =>
          if current_cost > best then gridAStarLoop nb valid get_cost goal fuel visited heap1
          else if current_cost < best then none
          else
            let delta := get_cost current_id
            if delta < 0 then gridAStarLoop nb valid get_cost goal fuel visited heap1
            else
              let other_cost := current_cost + delta.toNat
              let st := (nb.get_all_neighbors current_id).foldl
                (gridAStarVisit nb valid get_cost goal current_id other_cost) (visited, heap1)
              gridAStarLoop nb valid get_cost goal fuel st.1 st.2

/-- Path reconstruction by walking parent pointers from a cell back to the
start (the steps block shared by all searches in the crate). Produces the
chain from the given cell down to the start, inclusive; the source reverses
it afterwards. A cell without a visited entry aborts in the source. -/

def backtrack {A : Type} [DecidableEq A] (visited : List (A × Nat × A)) (start : A) :
    Nat → A → Option (List A)
  | 0, _ => none
  | fuel + 1, current =>
    if current = start then some [start]
    else
      match alistGet visited current with
      | none => none
      | some (_, prev) => (backtrack visited start fuel prev).map (fun l => current :: l)

/-- Grid A* (a_star_search of src/grid/a_star.rs). The size_hint parameter
of the source only sets container capacities and is omitted. A wall start
fails immediately; start equal to goal yields the degenerate two-point
path of cost zero. -/

def a_star_search (nb : Neighborhood) (valid : Point → Bool) (get_cost : Point → Int)
    (start goal : Point) (fuel : Nat) : Option (Path Point) :=
  if get_cost start < 0 then none
  else if start = goal then some (Path.from_slice [start, start] 0)
  else
    match gridAStarLoop nb valid get_cost goal fuel [(start, 0, start)] [(start, 0, 0)] with
    | none => none
    | some visited =>
      match alistGet visited goal with
      | none => none
      | some (goal_cost, _) =>
        (backtrack visited start (visited.length + 1) goal).map
          (fun chain => Path.new chain.reverse goal_cost)

/-- One iteration of the neighbor loop of grid Dijkstra
(src/grid/dijkstra.rs): like the A* one, except that non-goal walls are
detected against the remaining goal set and heap entries carry no
heuristic. -/

def gridDijkstraVisit (valid : Point → Bool) (get_cost : Point → Int)
    (current_id : Point) (other_cost : Nat) (remaining : List Point)
    (st : GridVisited × List (Point × Nat)) (other_id : Point) :
    GridVisited × List (Point × Nat) :=
  if !(valid other_id) then st
  else if get_cost other_id < 0 ∧ ¬ other_id ∈ remaining then st
  else
    match alistGet st.1 other_id with
    | some (prev_cost, _) =>
      if prev_cost > other_cost then
        (alistInsert st.1 other_id (other_cost, current_id), st.2 ++ [(other_id, other_cost)])
      else st
    | none =>
      (alistInsert st.1 other_id (other_cost, current_id), st.2 ++ [(other_id, other_cost)])

/-- The while-let loop of grid Dijkstra (src/grid/dijkstra.rs): pop a
least-cost element, skip stale entries, record and remove a reached goal
(stopping on the first goal when requested, or when no goals remain), skip
expansion of wall cells, and otherwise expand all neighbors. -/

def gridDijkstraLoop (nb : Neighborhood) (valid : Point → Bool) (get_cost : Point → Int)
    (only_closest_goal : Bool) :
    Nat → GridVisited → List (Point × Nat) → List Point → List (Point × Nat) →
    Option (GridVisited × List (Point × Nat))
  | 0, _, _, _, _ => none
  | fuel + 1, visited, heap, remaining, goal_costs =>
    match popMinBy (fun e => e.2) heap with
    | none => some (visited, goal_costs)
    | some ((current_id, current_cost), heap1) =>
      match alistGet visited current_id with
      | none => none
      | some (best, _) =>
        if current_cost > best then
          gridDijkstraLoop nb valid get_cost only_closest_goal fuel visited heap1 remaining
            goal_costs
        else if current_cost < best then none
        else if current_id ∈ remaining then
          let remaining1 := setRemove remaining current_id
          let goal_costs1 := alistInsert goal_costs current_id current_cost
          if only_closest_goal || remaining1.isEmpty then some (visited, goal_costs1)
          else if get_cost current_id < 0 then
            gridDijkstraLoop nb valid get_cost only_closest_goal fuel visited heap1 remaining1
              goal_costs1
          else
            let st := (nb.get_all_neighbors current_id).foldl
              (gridDijkstraVisit valid get_cost current_id
                (current_cost + (get_cost current_id).toNat) remaining1) (visited, heap1)
            gridDijkstraLoop nb valid get_cost only_closest_goal fuel st.1 st.2 remaining1
              goal_costs1
        else
          if get_cost current_id < 0 then
            gridDijkstraLoop nb valid get_cost only_closest_goal fuel visited heap1 remaining
              goal_costs
          else
            let st := (nb.get_all_neighbors current_id).foldl
              (gridDijkstraVisit valid get_cost current_id
                (current_cost + (get_cost current_id).toNat) remaining) (visited, heap1)
            gridDijkstraLoop nb valid get_cost only_closest_goal fuel st.1 st.2 remaining
              goal_costs

/-- Grid Dijkstra (dijkstra_search of src/grid/dijkstra.rs): multi-goal
search returning a map from each reached goal to its path. The source
iterates the goal-cost hash map to build the result; the model iterates it
in insertion order. -/

def dijkstra_search (nb : Neighborhood) (valid : Point → Bool) (get_cost : Point → Int)
    (start : Point) (goals : List Point) (only_closest_goal : Bool) (fuel : Nat) :
    Option (List (Point × Path Point)) :=
  let remaining := goals.foldl setInsert []
  match gridDijkstraLoop nb valid get_cost only_closest_goal fuel
      [(start, 0, start)] [(start, 0)] remaining [] with
  | none => none
  | some (visited, goal_costs) =>
    goal_costs.mapM (fun gc =>
      (backtrack visited start (visited.length + 1) gc.1).map
        (fun chain => (gc.1, Path.new chain.reverse gc.2)))

/-- The parent invariant of the grid A* visited map: every recorded parent
passed the non-wall expansion check, and every visited cell is the start or
a neighbor of its parent. -/

def ParentInv (nb : Neighborhood) (get_cost : Point → Int) (start : Point)
    (visited : GridVisited) : Prop :=
  ∀ e ∈ visited, 0 ≤ get_cost e.2.2 ∧ (e.1 = start ∨ e.1 ∈ nb.get_all_neighbors e.2.2)

/-- The 2 by 2 grid whose bottom-right cell is a wall, for exercising the
searches at a wall goal. -/

def wallGoalCost : Point → Int := fun p => if p = (1, 1) then -1 else 1

/-- The expected A* result on wallGoalCost from (0,0) to the wall (1,1). -/

def wallGoalPath : Path Point := Path.new [(0, 0), (1, 0), (1, 1)] 2

/-- A one-cell neighborhood, for the degenerate-path runs. -/

def nbOne : Neighborhood := ManhattanNeighborhood 1 1

/-- Node ids of the abstract graph (u32 NodeID in the source). -/

abbrev NodeID : Type := Nat

/-- A node of the abstract graph as held by the node list: position, walk
cost and outgoing edges keyed by target id (struct Node, src/graph). -/

structure Node : Type where
  pos : Point
  walk_cost : Nat
  edges : List (NodeID × PathSegment)
deriving Repr, DecidableEq

/-- Node::new. -/

def Node.new (pos : Point) (walk_cost : Nat) : Node :=
  { pos := pos, walk_cost := walk_cost, edges := [] }

/-- The node list (struct NodeList of src/graph/node_list.rs): a slab of
nodes and a position index. The slab reuses freed keys, but none of the
modelled operations removes a node, so keys are handed out sequentially
exactly as in the source. -/

structure NodeList : Type where
  nodes : List (NodeID × Node)
  pos_map : List (Point × NodeID)

/-- NodeList::new. -/

def NodeList.new : NodeList := { nodes := [], pos_map := [] }

/-- NodeList::len. -/

def NodeList.len (nl : NodeList) : Nat := nl.pos_map.length

/-- NodeList::add_node: allocate a slab slot and index the position. -/

def NodeList.add_node (nl : NodeList) (pos : Point) (walk_cost : Nat) : NodeList × NodeID :=
  let id := nl.nodes.length
  ({ nodes := nl.nodes ++ [(id, Node.new pos walk_cost)]
     pos_map := alistInsert nl.pos_map pos id }, id)

/-- The Index impl of NodeList; a missing id aborts in the source. -/

def NodeList.getNode (nl : NodeList) (id : NodeID) : Option Node :=
  alistGet nl.nodes id

/-- In-place mutation of one node, as through IndexMut. -/

def NodeList.updateNode (nl : NodeList) (id : NodeID) (f : Node → Node) : NodeList :=
  { nl with nodes := nl.nodes.map (fun e => if e.1 = id then (e.1, f e.2) else e) }

/-- NodeList::id_at. -/

def NodeList.id_at (nl : NodeList) (pos : Point) : Option NodeID :=
  alistGet nl.pos_map pos

/-- The installation half of NodeList::add_edge: reads both walk costs,
stores the reversed segment on the target keyed by the source and the
segment itself on the source keyed by the target. -/

def NodeList.add_edge_install (nl : NodeList) (src target : NodeID) (path : PathSegment)
    (src_node : Node) : Option NodeList :=
  match nl.getNode target with
  | none => none
  | some target_node =>
    let other_path := path.reversed src_node.walk_cost target_node.walk_cost
    let nl1 := nl.updateNode target
      (fun n => { n with edges := alistInsert n.edges src other_path })
    some (nl1.updateNode src
      (fun n => { n with edges := alistInsert n.edges target path }))

/-- NodeList::add_edge (src/graph/node_list.rs lines 28-46): a no-op when
the source already has an edge to the target of equal cost; otherwise the
reciprocal installation. Missing ids abort in the source and yield none. -/

def NodeList.add_edge (nl : NodeList) (src target : NodeID) (path : PathSegment) :
    Option NodeList :=
  match nl.getNode src with
  | none => none
  | some src_node =>
    match alistGet src_node.edges target with
    | some existing =>
      if existing.cost = path.cost then some nl
      else nl.add_edge_install src target path src_node
    | none => nl.add_edge_install src target path src_node

/-- The two-node list used to exercise add_edge: walk costs 1 and 5. -/

def nlC8 : NodeList :=
  { nodes := [(0, { pos := (0, 0), walk_cost := 1, edges := [] }),
              (1, { pos := (1, 1), walk_cost := 5, edges := [] })]
    pos_map := [((0, 0), 0), ((1, 1), 1)] }

/-- A summary segment of cost 3 between the two nodes of nlC8. -/

def segC8 : PathSegment := PathSegment.unknown (0, 0) (1, 1) 3 2

/-- usize cast of an isize value (two's complement reinterpretation). -/

def usizeOfInt (i : Int) : Nat := (i % ((2 : Int) ^ 64)).toNat

/-- ordered_insert of src/generics/mod.rs: insert before the first element
whose key is at most the new key, keeping the vector sorted descending. -/

def ordered_insert {A : Type} (get_value : A → Nat) : List A → A → List A
  | [], element => [element]
  | x :: xs, element =>
    if get_value x ≤ get_value element then element :: x :: xs
    else x :: ordered_insert get_value xs element

/-- One neighbor-processing step of the generic A* of src/generics/a_star.rs:
skip non-walkable non-goal nodes; an improved visited cost drops the stale
open entries and a new or improved node is inserted into the descending
open vector and recorded in the visited map. -/

def genericsAStarVisit {A : Type} [DecidableEq A]
    (get_cost : A → A → Nat) (is_walkable : A → Bool) (goal : A) (heuristic : A → Nat)
    (current_id : A) (current_cost : Nat)
    (st : List (A × Nat × A) × List (A × Nat)) (other_id : A) :
    List (A × Nat × A) × List (A × Nat) :=
  let other_cost := current_cost + get_cost current_id other_id
  if !is_walkable other_id ∧ other_id ≠ goal then st
  else
    let h := heuristic other_id
    match alistGet st.1 other_id with
    | none =>
      (alistInsert st.1 other_id (other_cost, current_id),
       ordered_insert (fun e => e.2) st.2 (other_id, other_cost + h))
    | some (prev_cost, _) =>
      if prev_cost > other_cost then
        (alistInsert st.1 other_id (other_cost, current_id),
         ordered_insert (fun e => e.2)
           (st.2.filter (fun e => if e.1 = other_id then false else true))
           (other_id, other_cost + h))
      else st

/-- The search loop of the generic A* of src/generics/a_star.rs: the open
list is a Vec sorted descending by f, popped from the end (least f), with
no stale-entry check because stale entries are removed eagerly. -/

def genericsAStarLoop {A : Type} [DecidableEq A]
    (get_all_neighbors : A → List A) (get_cost : A → A → Nat) (is_walkable : A → Bool)
    (goal : A) (heuristic : A → Nat) :
    Nat → List (A × Nat × A) → List (A × Nat) → Option (List (A × Nat × A))
  | 0, _, _ => none
  | fuel + 1, visited, next =>
    match next.getLast? with
    | none => some visited
    | some (current_id, _) =>
      if current_id = goal then some visited
      else
        match alistGet visited current_id with
        | none => none
        | some (current_cost, _) =>
          let st := (get_all_neighbors current_id).foldl
            (genericsAStarVisit get_cost is_walkable goal heuristic current_id current_cost)
            (visited, next.dropLast)
          genericsAStarLoop get_all_neighbors get_cost is_walkable goal heuristic fuel
            st.1 st.2

/-- The generic A* over an abstract successor function
(a_star_search of src/generics/a_star.rs), used by safe_next to
rematerialize summary segments. -/

def generics_a_star_search {A : Type} [DecidableEq A]
    (get_all_neighbors : A → List A) (get_cost : A → A → Nat) (is_walkable : A → Bool)
    (start goal : A) (heuristic : A → Nat) (fuel : Nat) : Option (Path A) :=
  if start = goal then some (Path.new [start, start] 0)
  else
    match genericsAStarLoop get_all_neighbors get_cost is_walkable goal heuristic fuel
        [(start, 0, start)] [(start, 0)] with
    | none => none
    | some visited =>
      match alistGet visited goal with
      | none => none
      | some (goal_cost, _) =>
        (backtrack visited start (visited.length + 1) goal).map
          (fun chain => Path.new chain.reverse goal_cost)

/-- The lazily stitched query result (struct AbstractPathImpl of
src/path_cache/abstract_path.rs): ordered segments, the total cost, the
current end point and the iteration cursor (segment index, offset). -/

structure AbstractPathImpl : Type where
  neighborhood : Option Neighborhood
  total_cost : Cost
  path : List PathSegment
  stop : Point
  current_index : Nat × Nat

/-- AbstractPathImpl::new: empty path anchored at the start, cursor at
(segment 0, offset 1). -/

def AbstractPathImpl.new (start : Point) : AbstractPathImpl :=
  { neighborhood := none, total_cost := 0, path := [], stop := start,
    current_index := (0, 1) }

/-- AbstractPathImpl::from_known_path: one Known segment, cursor (0, 1). -/

def AbstractPathImpl.from_known_path (p : Path Point) : AbstractPathImpl :=
  { neighborhood := none, total_cost := p.cost, path := [.known p],
    stop := p.index (p.len - 1), current_index := (0, 1) }

/-- AbstractPathImpl::from_node. -/

def AbstractPathImpl.from_node (nb : Neighborhood) (node : Point) : AbstractPathImpl :=
  { neighborhood := some nb, total_cost := 0, path := [], stop := node,
    current_index := (0, 1) }

/-- Modelled from the spec: the new-layout abstract_path.rs is absent from
src/ (src/path/mod.rs declares the module but the file is missing); the
call sites in src/path_cache.rs construct abstract paths passing the
neighborhood along. The fields follow src/path_cache/abstract_path.rs with
the neighborhood stored. -/

def AbstractPathImpl.from_known_path_with (nb : Neighborhood) (p : Path Point) :
    AbstractPathImpl :=
  { AbstractPathImpl.from_known_path p with neighborhood := some nb }

/-- Modelled from the spec: companion constructor to from_known_path_with
for the AbstractPath::new(neighborhood, start) call site of resolve_paths. -/

def AbstractPathImpl.new_with (nb : Neighborhood) (start : Point) : AbstractPathImpl :=
  { AbstractPathImpl.new start with neighborhood := some nb }

/-- AbstractPathImpl::add_path_segment: asserts contiguity with the
current end (assertion failure modelled as none). -/

def AbstractPathImpl.add_path_segment (ap : AbstractPathImpl) (seg : PathSegment) :
    Option AbstractPathImpl :=
  if ap.stop = seg.start then
    some { ap with
      total_cost := ap.total_cost + seg.cost
      stop := seg.stop
      path := ap.path ++ [seg] }
  else none

/-- AbstractPathImpl::add_path. -/

def AbstractPathImpl.add_path (ap : AbstractPathImpl) (p : Path Point) : AbstractPathImpl :=
  { ap with
    total_cost := ap.total_cost + p.cost
    stop := p.index (p.len - 1)
    path := ap.path ++ [.known p] }

/-- AbstractPathImpl::add_node. -/

def AbstractPathImpl.add_node (ap : AbstractPathImpl) (node : Point) (cost : Cost)
    (len : Nat) : AbstractPathImpl :=
  { ap with
    path := ap.path ++ [.unknown ap.stop node cost len]
    total_cost := ap.total_cost + cost
    stop := node }

/-- Result of one iterator step: the source returns Option(Point) and
aborts on misuse; panicked models the aborts. -/

inductive NextRes : Type where
  | finished : NextRes
  | panicked : NextRes
  | yielded : Point → AbstractPathImpl → NextRes

/-- The yielded point of a step, when any. -/

def NextRes.point? : NextRes → Option Point
  | .yielded p _ => some p
  | _ => none

/-- The advanced path of a step, when any. -/

def NextRes.state? : NextRes → Option AbstractPathImpl
  | .yielded _ ap => some ap
  | _ => none

/-- The Iterator::next implementation of src/path_cache/abstract_path.rs
(lines 145-167): yield the cell at the cursor of the current Known
segment, then advance; crossing a segment boundary moves the cursor to
(segment_index + 1, 1). An Unknown segment aborts. -/

def AbstractPathImpl.next (ap : AbstractPathImpl) : NextRes :=
  if ap.current_index.1 ≥ ap.path.length then .finished
  else
    match ap.path.get? ap.current_index.1 with
    | none => .panicked
    | some (.unknown _ _ _ _) => .panicked
    | some (.known pth) =>
      let ret := pth.index ap.current_index.2
      let j := ap.current_index.2 + 1
      let idx :=
        if j ≥ pth.len then (ap.current_index.1 + 1, 1) else (ap.current_index.1, j)
      .yielded ret { ap with current_index := idx }

/-- The Known-segment step shared by the branches of safe_next: yield the
cell at the cursor, then advance; crossing a segment boundary moves the
cursor to (segment_index + 1, 0). -/

def AbstractPathImpl.safeNextKnown (ap : AbstractPathImpl) (pth : Path Point) : NextRes :=
  let ret := pth.index ap.current_index.2
  let j := ap.current_index.2 + 1
  let idx :=
    if j ≥ pth.len then (ap.current_index.1 + 1, 0) else (ap.current_index.1, j)
  .yielded ret { ap with current_index := idx }

/-- safe_next of src/path_cache/abstract_path.rs (lines 94-137): an
Unknown segment is rematerialized by the generic A* between its endpoints
using the stored neighborhood, replaced by the Known result, and the
offset is reset to 1 (the segment includes its start, already yielded);
then the Known step runs. A missing neighborhood or failed search aborts.
The isize-to-usize cast of the cost function wraps into the usize range. -/

def AbstractPathImpl.safe_next (get_cost : Point → Int) (fuel : Nat)
    (ap : AbstractPathImpl) : NextRes :=
  if ap.current_index.1 ≥ ap.path.length then .finished
  else
    match ap.path.get? ap.current_index.1 with
    | none => .panicked
    | some (.known pth) => ap.safeNextKnown pth
    | some (.unknown s e _ _) =>
      match ap.neighborhood with
      | none => .panicked
      | some nb =>
        match generics_a_star_search (fun p => nb.get_all_neighbors p)
            (fun p _ => usizeOfInt (get_cost p)) (fun p => decide (0 ≤ get_cost p))
            s e (fun p => nb.heuristic p e) fuel with
        | none => .panicked
        | some pth =>
          let ap1 := { ap with
            path := ap.path.set ap.current_index.1 (.known pth)
            current_index := (ap.current_index.1, 1) }
          ap1.safeNextKnown pth

/-- A two-segment fully Known abstract path over the junction cell (1,0),
for exercising the iteration at a segment boundary. -/

def apC7 : AbstractPathImpl :=
  (AbstractPathImpl.from_known_path (Path.new [(0, 0), (1, 0)] 1)).add_path
    (Path.new [(1, 0), (2, 0)] 1)

/-- The four side directions (enum Dir of src/utils.rs). -/

inductive Dir : Type where
  | UP
  | RIGHT
  | DOWN
  | LEFT
deriving DecidableEq, Repr

/-- Dir::num. -/

def Dir.num : Dir → Nat
  | .UP => 0
  | .RIGHT => 1
  | .DOWN => 2
  | .LEFT => 3

/-- Dir::all. -/

def Dir.all : List Dir := [.UP, .RIGHT, .DOWN, .LEFT]

/-- Dir::opposite, computed in the source as (num + 2) mod 4. -/

def Dir.opposite : Dir → Dir
  | .UP => .DOWN
  | .RIGHT => .LEFT
  | .DOWN => .UP
  | .LEFT => .RIGHT

/-- Dir::is_vertical. -/

def Dir.is_vertical (d : Dir) : Bool := d = .UP ∨ d = .DOWN

/-- UNIT_CIRCLE of src/utils.rs. -/

def UNIT_CIRCLE : Dir → Int × Int
  | .UP => (0, -1)
  | .RIGHT => (1, 0)
  | .DOWN => (0, 1)
  | .LEFT => (-1, 0)

/-- get_in_dir of src/utils.rs: one step in a direction inside the box
from base of the given size, none at the box edge. (The file
src/path_cache/utils.rs holds an older variant of these helpers; the
crate code modelled here uses src/utils.rs.) -/

def get_in_dir (pos : Point) (dir : Dir) (base : Point) (size : Nat × Nat) : Option Point :=
  let diff := UNIT_CIRCLE dir
  if (pos.1 = base.1 ∧ diff.1 < 0) ∨ (pos.2 = base.2 ∧ diff.2 < 0)
      ∨ (pos.1 = base.1 + size.1 - 1 ∧ diff.1 > 0)
      ∨ (pos.2 = base.2 + size.2 - 1 ∧ diff.2 > 0) then
    none
  else
    some (((pos.1 : Int) + diff.1).toNat, ((pos.2 : Int) + diff.2).toNat)

/-- jump_in_dir of src/utils.rs: several steps in a direction, bounds
checked against the box from base of the given size. -/

def jump_in_dir (pos : Point) (dir : Dir) (dist : Nat) (base : Point) (size : Nat × Nat) :
    Option Point :=
  let diff := UNIT_CIRCLE dir
  let res : Int × Int := ((pos.1 : Int) + diff.1 * dist, (pos.2 : Int) + diff.2 * dist)
  if (base.1 : Int) ≤ res.1 ∧ res.1 < (base.1 : Int) + size.1 ∧ (base.2 : Int) ≤ res.2
      ∧ res.2 < (base.2 : Int) + size.2 then
    some (res.1.toNat, res.2.toNat)
  else none

/-- PathCacheConfig (src/path_cache/cache_config.rs). -/

structure PathCacheConfig : Type where
  chunk_size : Nat
  cache_paths : Bool
  a_star_fallback : Bool
  perfect_paths : Bool

/-- A chunk (struct Chunk of src/path_cache/chunk.rs): origin, size, the
ids of its border nodes (a hash set, modelled insertion ordered) and the
shared-side flags. -/

structure Chunk : Type where
  pos : Point
  size : Point
  nodes : List NodeID
  sides : Dir → Bool

/-- Chunk::top. -/

def Chunk.top (c : Chunk) : Nat := c.pos.2

/-- Chunk::right. -/

def Chunk.right (c : Chunk) : Nat := c.pos.1 + c.size.1

/-- Chunk::bottom. -/

def Chunk.bottom (c : Chunk) : Nat := c.pos.2 + c.size.2

/-- Chunk::left. -/

def Chunk.left (c : Chunk) : Nat := c.pos.1

/-- Chunk::in_chunk. -/

def Chunk.in_chunk (c : Chunk) (point : Point) : Bool :=
  c.left ≤ point.1 ∧ point.1 < c.right ∧ c.top ≤ point.2 ∧ point.2 < c.bottom

/-- Chunk::at_side. -/

def Chunk.at_side (c : Chunk) (point : Point) : Dir → Bool
  | .UP => point.2 = c.top
  | .RIGHT => point.1 = c.right - 1
  | .DOWN => point.2 = c.bottom - 1
  | .LEFT => point.1 = c.left

/-- Chunk::is_corner: exactly two active sides contain the point. -/

def Chunk.is_corner (c : Chunk) (point : Point) : Bool :=
  (Dir.all.filter (fun dir => c.sides dir && c.at_side point dir)).length = 2

/-- The running state of the gap scan of calculate_side_nodes. -/

structure SideScanState : Type where
  has_gap : Bool
  gap_start : Nat
  gap_start_pos : Point
  previous : Point
  current : Point
  candidates : List Point

/-- The perfect_paths inner loop of calculate_side_nodes: a node at every
interior cell of the gap. -/

def perfectScan (total_size : Nat × Nat) (next_dir : Dir) :
    Nat → Point → List Point → Option (List Point)
  | 0, _, cands => some cands
  | count + 1, p, cands =>
    match get_in_dir p next_dir (0, 0) total_size with
    | none => none
    | some p2 => perfectScan total_size next_dir count p2 (setInsert cands p2)

/-- The interior-minimum inner loop of calculate_side_nodes: an extra node
wherever the combined cost drops below the running minimum. -/

def interiorScan (costs : List (Int × Int)) (total_size : Nat × Nat) (next_dir : Dir) :
    Nat → Nat → Int → Point → List Point → Option (List Point)
  | 0, _, _, _, cands => some cands
  | count + 1, gi, mn, p, cands =>
    match get_in_dir p next_dir (0, 0) total_size with
    | none => none
    | some p2 =>
      match costs.get? gi with
      | none => none
      | some cc =>
        let cost := cc.1 + cc.2
        if cost < mn then
          interiorScan costs total_size next_dir count (gi + 1) cost p2 (setInsert cands p2)
        else interiorScan costs total_size next_dir count (gi + 1) mn p2 cands

/-- Closing a gap in calculate_side_nodes: both gap endpoints become
candidates, then the perfect_paths rule or the interior-minimum rule plus
the long-gap midpoint rule. -/

def gapClose (costs : List (Int × Int)) (config : PathCacheConfig) (total_size : Nat × Nat)
    (next_dir : Dir) (gap_start gap_end : Nat) (gap_start_pos gap_end_pos : Point)
    (cands : List Point) : Option (List Point) :=
  let gap_len := gap_end - gap_start + 1
  let cands1 := setInsert (setInsert cands gap_start_pos) gap_end_pos
  if config.perfect_paths then
    perfectScan total_size next_dir (gap_end - (gap_start + 1)) gap_start_pos cands1
  else
    let afterMin : Option (List Point) :=
      if gap_len > 2 then
        match costs.get? gap_start, costs.get? gap_end with
        | some a, some b =>
          interiorScan costs total_size next_dir (gap_end - (gap_start + 1)) (gap_start + 1)
            (min (a.1 + a.2) (b.1 + b.2)) gap_start_pos cands1
        | _, _ => none
      else some cands1
    match afterMin with
    | none => none
    | some cands2 =>
      if gap_len > 6 then
        some (setInsert cands2 ((gap_start_pos.1 + gap_end_pos.1) / 2,
          (gap_start_pos.2 + gap_end_pos.2) / 2))
      else some cands2

/-- The index loop of calculate_side_nodes over the side strip: track the
open gap, close it at a solid cell or at the strip end, and advance the
current and previous positions. -/

def sideScan (costs : List (Int × Int)) (config : PathCacheConfig) (total_size : Nat × Nat)
    (next_dir : Dir) (cpos csize : Point) :
    Nat → Nat → SideScanState → Option (List Point)
  | _, 0, st => some st.candidates
  | i, count + 1, st =>
    match costs.get? i with
    | none => none
    | some cc =>
      let is_last : Bool := count = 0
      let solid : Bool := cc.1 < 0 ∨ cc.2 < 0
      let st1 := if !solid && !st.has_gap then
          { st with has_gap := true, gap_start := i, gap_start_pos := st.current }
        else st
      let closed : Option SideScanState :=
        if (solid || is_last) && st1.has_gap then
          let ge := if solid then (i - 1, st1.previous) else (i, st1.current)
          match gapClose costs config total_size next_dir st1.gap_start ge.1
              st1.gap_start_pos ge.2 st1.candidates with
          | none => none
          | some cands2 => some { st1 with has_gap := false, candidates := cands2 }
        else some st1
      match closed with
      | none => none
      | some st2 =>
        if is_last then sideScan costs config total_size next_dir cpos csize (i + 1) count st2
        else
          match get_in_dir st2.current next_dir cpos csize with
          | none => none
          | some cur2 =>
            sideScan costs config total_size next_dir cpos csize (i + 1) count
              { st2 with previous := st2.current, current := cur2 }

/-- Chunk::calculate_side_nodes (src/path_cache/chunk.rs lines 58-172):
walk one side strip, classify each cell solid when it or its mirror cell
across the border is a wall, and collect entrance-node candidates per gap. -/

def Chunk.calculate_side_nodes (c : Chunk) (dir : Dir) (total_size : Nat × Nat)
    (get_cost : Point → Int) (config : PathCacheConfig) (candidates : List Point) :
    Option (List Point) :=
  let current := [(c.pos.1, c.pos.2), (c.pos.1 + c.size.1 - 1, c.pos.2),
    (c.pos.1, c.pos.2 + c.size.2 - 1), (c.pos.1, c.pos.2)].getD dir.num (0, 0)
  let nd := if dir.is_vertical then (Dir.RIGHT, c.size.1) else (Dir.DOWN, c.size.2)
  match get_in_dir current dir (0, 0) total_size with
  | none => some candidates
  | some _ =>
    match (List.range nd.2).mapM (fun i =>
        (jump_in_dir current nd.1 i c.pos c.size).bind (fun p =>
          (get_in_dir p dir (0, 0) total_size).map (fun op => (get_cost p, get_cost op)))) with
    | none => none
    | some costs =>
      sideScan costs config total_size nd.1 c.pos c.size 0 nd.2
        { has_gap := false
          gap_start := 0
          gap_start_pos := current
          previous := current
          current := current
          candidates := candidates }

/-- Chunk::find_paths: multi-goal Dijkstra restricted to the chunk
rectangle (the floating-point size hint of the source only selects
container capacities and is dropped). -/

def Chunk.find_paths (c : Chunk) (nb : Neighborhood) (start : Point) (goals : List Point)
    (get_cost : Point → Int) (fuel : Nat) : Option (List (Point × Path Point)) :=
  if !(c.in_chunk start) then some []
  else dijkstra_search nb (fun p => c.in_chunk p) get_cost start goals false fuel

/-- Chunk::find_path: chunk-restricted grid A*. -/

def Chunk.find_path (c : Chunk) (nb : Neighborhood) (start goal : Point)
    (get_cost : Point → Int) (fuel : Nat) : Option (Path Point) :=
  if !(c.in_chunk start) || !(c.in_chunk goal) then none
  else a_star_search nb (fun p => c.in_chunk p) get_cost start goal fuel

/-- The edge-installation loop of Chunk::add_nodes: each found path to a
peer becomes an edge carrying a segment, Known or summary per the
cache_paths flag. -/

def addEdgesFromPaths (config : PathCacheConfig) (id : NodeID) :
    List (Point × Path Point) → NodeList → Option NodeList
  | [], nl => some nl
  | (other_pos, path) :: rest, nl =>
    match nl.id_at other_pos with
    | none => none
    | some other_id =>
      match nl.add_edge id other_id (PathSegment.new path config.cache_paths) with
      | none => none
      | some nl2 => addEdgesFromPaths config id rest nl2

/-- The per-node loop of Chunk::add_nodes: the i-th node of to_visit is
connected to all later points of the combined point list. -/

def addNodesConnect (c : Chunk) (nb : Neighborhood) (get_cost : Point → Int)
    (config : PathCacheConfig) (fuel : Nat) (points : List Point) :
    List NodeID → Nat → NodeList → Option NodeList
  | [], _, nl => some nl
  | id :: rest, i, nl =>
    match points.get? i with
    | none => none
    | some point =>
      match c.find_paths nb point (points.drop (i + 1)) get_cost fuel with
      | none => none
      | some paths =>
        match addEdgesFromPaths config id paths nl with
        | none => none
        | some nl2 => addNodesConnect c nb get_cost config fuel points rest (i + 1) nl2

/-- Chunk::add_nodes (src/path_cache/chunk.rs lines 174-205): record the
new ids in the chunk and connect every new node to all the later listed
border nodes of the chunk by chunk-bounded Dijkstra. -/

def Chunk.add_nodes (c : Chunk) (to_visit : List NodeID) (get_cost : Point → Int)
    (nb : Neighborhood) (all_nodes : NodeList) (config : PathCacheConfig) (fuel : Nat) :
    Option (Chunk × NodeList) :=
  match (to_visit ++ c.nodes).mapM (fun id => (all_nodes.getNode id).map (fun n => n.pos)) with
  | none => none
  | some points =>
    let c1 := { c with nodes := to_visit.foldl setInsert c.nodes }
    match addNodesConnect c1 nb get_cost config fuel points to_visit 0 all_nodes with
    | none => none
    | some nl2 => some (c1, nl2)

/-- The side loop of Chunk::new: mark each side not on the outer grid
boundary as shared and collect its candidates. -/

def chunkSides (total_size : Nat × Nat) (get_cost : Point → Int)
    (config : PathCacheConfig) :
    Chunk → List Point → List Dir → Option (Chunk × List Point)
  | c, cands, [] => some (c, cands)
  | c, cands, dir :: rest =>
    if (dir = .UP ∧ c.top = 0) ∨ (dir = .RIGHT ∧ c.right = total_size.1)
        ∨ (dir = .DOWN ∧ c.bottom = total_size.2) ∨ (dir = .LEFT ∧ c.left = 0) then
      chunkSides total_size get_cost config c cands rest
    else
      let c1 := { c with sides := fun d => if d = dir then true else c.sides d }
      match c1.calculate_side_nodes dir total_size get_cost config cands with
      | none => none
      | some cands2 => chunkSides total_size get_cost config c1 cands2 rest

/-- Chunk::new (src/path_cache/chunk.rs lines 17-56): set up the shared
sides, collect entrance candidates, create their nodes (walk cost is the
cell cost cast to usize) and connect them inside the chunk. -/

def Chunk.new (pos : Point) (size : Nat × Nat) (total_size : Nat × Nat)
    (get_cost : Point → Int) (nb : Neighborhood) (all_nodes : NodeList)
    (config : PathCacheConfig) (fuel : Nat) : Option (Chunk × NodeList) :=
  let c0 : Chunk := { pos := pos, size := size, nodes := [], sides := fun _ => false }
  match chunkSides total_size get_cost config c0 [] Dir.all with
  | none => none
  | some (c1, candidates) =>
    let acc := candidates.foldl (fun acc p =>
      let r := acc.1.add_node p (usizeOfInt (get_cost p))
      (r.1, acc.2 ++ [r.2])) (all_nodes, ([] : List NodeID))
    c1.add_nodes acc.2 get_cost nb acc.1 config fuel

/-- The reverse scan of Chunk::nearest_node for a wall start: the first
listed chunk node from which the start can be reached. -/

def nearestReverseScan (c : Chunk) (all_nodes : NodeList) (start : Point)
    (get_cost : Point → Int) (nb : Neighborhood) (fuel : Nat) :
    List NodeID → Option (Option (NodeID × Path Point))
  | [] => some none
  | id :: rest =>
    match all_nodes.getNode id with
    | none => none
    | some n =>
      match c.find_path nb n.pos start get_cost fuel with
      | none => nearestReverseScan c all_nodes start get_cost nb fuel rest
      | some path => some (some (id, path))

/-- Chunk::nearest_node (src/path_cache/chunk.rs lines 271-326): the
first border node reached by a chunk-bounded first-match Dijkstra from
the point; for a reverse query the returned path is reversed with the
walk-cost adjustment, and a wall start instead scans for a node that can
reach the point. The outer Option models aborts, the inner one is the
Option of the source. -/

def Chunk.nearest_node (c : Chunk) (all_nodes : NodeList) (start : Point)
    (get_cost : Point → Int) (nb : Neighborhood) (reverse : Bool) (fuel : Nat) :
    Option (Option (NodeID × Path Point)) :=
  let start_cost := get_cost start
  if start_cost < 0 then
    if !reverse then some none
    else nearestReverseScan c all_nodes start get_cost nb fuel c.nodes
  else
    match c.nodes.mapM (fun id =>
        (all_nodes.getNode id).map (fun n => (n.pos, id, n.walk_cost))) with
    | none => none
    | some triples =>
      let points := triples.map (fun t => t.1)
      match dijkstra_search nb (fun p => c.in_chunk p) get_cost start points true fuel with
      | none => none
      | some results =>
        match results.head? with
        | none => some none
        | some (point, path) =>
          match alistGet triples point with
          | none => none
          | some idc =>
            some (some (idc.1,
              if reverse then path.reversed (usizeOfInt start_cost) idc.2 else path))

/-- One edge-relaxation step of the abstract-graph A*
(src/graph/a_star.rs, body of the loop over current.edges): note that the
pushed f-value adds the heuristic between the current and the neighbor
node positions, as written in the source. -/

def graphExpand (all_nodes : NodeList) (nb : Neighborhood) (current_id : NodeID)
    (current_cost : Nat) (current_pos : Point) :
    List (NodeID × PathSegment) → List (NodeID × Nat × NodeID) → List (NodeID × Nat × Nat) →
    Option (List (NodeID × Nat × NodeID) × List (NodeID × Nat × Nat))
  | [], visited, heap => some (visited, heap)
  | (other_id, seg) :: rest, visited, heap =>
    let other_cost := current_cost + seg.cost
    match all_nodes.getNode other_id with
    | none => none
    | some other =>
      match alistGet visited other_id with
      | some pc =>
        if pc.1 > other_cost then
          graphExpand all_nodes nb current_id current_cost current_pos rest
            (alistInsert visited other_id (other_cost, current_id))
            (heap ++ [(other_id, other_cost, other_cost + nb.heuristic current_pos other.pos)])
        else graphExpand all_nodes nb current_id current_cost current_pos rest visited heap
      | none =>
        graphExpand all_nodes nb current_id current_cost current_pos rest
          (alistInsert visited other_id (other_cost, current_id))
          (heap ++ [(other_id, other_cost, other_cost + nb.heuristic current_pos other.pos)])

/-- The while-let loop of the abstract-graph A* (src/graph/a_star.rs). -/

def graphAStarLoop (all_nodes : NodeList) (goal : NodeID) (nb : Neighborhood) :
    Nat → List (NodeID × Nat × NodeID) → List (NodeID × Nat × Nat) →
    Option (List (NodeID × Nat × NodeID))
  | 0, _, _ => none
  | fuel + 1, visited, heap =>
    match popMinBy (fun e => e.2.2) heap with
    | none => some visited
    | some ((current_id, current_cost, _), heap1) =>
      if current_id = goal then some visited
      else
        match alistGet visited current_id with
        | none => none
        | some bp =>
          if current_cost > bp.1 then graphAStarLoop all_nodes goal nb fuel visited heap1
          else if current_cost < bp.1 then none
          else
            match all_nodes.getNode current_id with
            | none => none
            | some current =>
              match graphExpand all_nodes nb current_id current_cost current.pos
                  current.edges visited heap1 with
              | none => none
              | some st => graphAStarLoop all_nodes goal nb fuel st.1 st.2

/-- The abstract-graph A* (a_star_search of src/graph/a_star.rs). -/

def graph_a_star_search (all_nodes : NodeList) (start goal : NodeID) (nb : Neighborhood)
    (fuel : Nat) : Option (Path NodeID) :=
  if start = goal then some (Path.from_slice [start, start] 0)
  else
    match graphAStarLoop all_nodes goal nb fuel [(start, 0, start)] [(start, 0, 0)] with
    | none => none
    | some visited =>
      match alistGet visited goal with
      | none => none
      | some gp =>
        (backtrack visited start (visited.length + 1) goal).map
          (fun chain => Path.new chain.reverse gp.1)

/-- The path cache (struct PathCache of src/path_cache.rs). The snapshot
declares the node container as NodeMap while the chunk and graph modules
take a NodeList; the embedding uses NodeList throughout, whose add_edge
differs from NodeMap::add_edge only by the equal-cost no-op check, which
does not change the stored edge end points or costs. -/

structure PathCache : Type where
  width : Nat
  height : Nat
  chunks : List Chunk
  num_chunks : Nat × Nat
  nodes : NodeList
  neighborhood : Neighborhood
  config : PathCacheConfig

/-- The chunk-count arithmetic of PathCache::new_internal: number of
chunks along one axis and the extent of the last one. -/

def computeNumChunks (extent chunk_size : Nat) : Nat × Nat :=
  let w := extent / chunk_size
  let remain := extent - w * chunk_size
  if remain > 0 then (w + 1, remain) else (w, chunk_size)

/-- The sequential chunk-construction loops of PathCache::new_internal:
rows outer, columns inner, the last row and column using the remainder
extents. -/

def buildChunks (width height cs : Nat) (num_w num_h last_w last_h : Nat)
    (config : PathCacheConfig) (get_cost : Point → Int) (nb : Neighborhood) (fuel : Nat) :
    Option (List Chunk × NodeList) :=
  (List.range num_h).foldlM (fun acc y =>
    let h := if y = num_h - 1 then last_h else cs
    (List.range num_w).foldlM (fun acc2 x =>
      let w := if x = num_w - 1 then last_w else cs
      match Chunk.new (x * cs, y * cs) (w, h) (width, height) get_cost nb acc2.2 config
          fuel with
      | none => none
      | some cn => some (acc2.1 ++ [cn.1], cn.2)) acc) (([] : List Chunk), NodeList.new)

/-- PathCache::node_at. -/

def PathCache.node_at (cache : PathCache) (pos : Point) : Option NodeID :=
  cache.nodes.id_at pos

/-- The inner loop of PathCache::connect_nodes: a single-step edge to
every neighboring position that holds a node, with the two-point segment
costing the source node walk cost. -/

def connectOne (config : PathCacheConfig) (id : NodeID) (pos : Point) (cost : Nat) :
    List Point → NodeList → Option NodeList
  | [], nl => some nl
  | other_pos :: rest, nl =>
    match nl.id_at other_pos with
    | none => connectOne config id pos cost rest nl
    | some other_id =>
      match nl.add_edge id other_id
          (PathSegment.new (Path.from_slice [pos, other_pos] cost) config.cache_paths) with
      | none => none
      | some nl2 => connectOne config id pos cost rest nl2

/-- PathCache::connect_nodes (src/path_cache.rs lines 1335-1358) over a
given id list. -/

def connectNodesGo (nb : Neighborhood) (config : PathCacheConfig) :
    List NodeID → NodeList → Option NodeList
  | [], nl => some nl
  | id :: rest, nl =>
    match nl.getNode id with
    | none => none
    | some node =>
      match connectOne config id node.pos node.walk_cost
          (nb.get_all_neighbors node.pos) nl with
      | none => none
      | some nl2 => connectNodesGo nb config rest nl2

/-- PathCache::new through new_internal, sequential code path
(src/path_cache.rs lines 135-262): chunk grid construction followed by
the cross-chunk connection of all nodes. -/

def PathCache.new_internal (size : Nat × Nat) (get_cost : Point → Int) (nb : Neighborhood)
    (config : PathCacheConfig) (fuel : Nat) : Option PathCache :=
  let nw := computeNumChunks size.1 config.chunk_size
  let nh := computeNumChunks size.2 config.chunk_size
  match buildChunks size.1 size.2 config.chunk_size nw.1 nh.1 nw.2 nh.2 config get_cost nb
      fuel with
  | none => none
  | some cn =>
    match connectNodesGo nb config (cn.2.nodes.map (fun e => e.1)) cn.2 with
    | none => none
    | some nodes2 =>
      some { width := size.1
             height := size.2
             chunks := cn.1
             num_chunks := (nw.1, nh.1)
             nodes := nodes2
             neighborhood := nb
             config := config }

/-- PathCache::get_chunk_pos. -/

def PathCache.get_chunk_pos (cache : PathCache) (p : Point) : Point :=
  let s := cache.config.chunk_size
  ((p.1 / s) * s, (p.2 / s) * s)

/-- PathCache::get_chunk_index. -/

def PathCache.get_chunk_index (cache : PathCache) (p : Point) : Nat :=
  let s := cache.config.chunk_size
  (p.2 / s) * cache.num_chunks.1 + p.1 / s

/-- PathCache::get_chunk; an out-of-range index aborts in the source. -/

def PathCache.get_chunk (cache : PathCache) (p : Point) : Option Chunk :=
  cache.chunks.get? (cache.get_chunk_index p)

/-- PathCache::same_chunk. -/

def PathCache.same_chunk (cache : PathCache) (a b : Point) : Bool :=
  let s := cache.config.chunk_size
  a.1 / s = b.1 / s ∧ a.2 / s = b.2 / s

/-- PathCache::find_nearest_node: a node exactly at the position needs no
attachment path, otherwise the chunk-local nearest node with its
attachment path. -/

def PathCache.find_nearest_node (cache : PathCache) (pos : Point) (get_cost : Point → Int)
    (reverse : Bool) (fuel : Nat) : Option (Option (NodeID × Option (Path Point))) :=
  match cache.node_at pos with
  | some id => some (some (id, none))
  | none =>
    match cache.get_chunk pos with
    | none => none
    | some chunk =>
      match chunk.nearest_node cache.nodes pos get_cost cache.neighborhood reverse fuel with
      | none => none
      | some none => some none
      | some (some r) => some (some (r.1, some r.2))

/-- PathCache::grid_a_star (size hint dropped). -/

def PathCache.grid_a_star (cache : PathCache) (start goal : Point)
    (get_cost : Point → Int) (fuel : Nat) : Option (Path Point) :=
  a_star_search cache.neighborhood (fun _ => true) get_cost start goal fuel

/-- The middle loop of PathCache::resolve_paths: every consecutive node
pair of the abstract path contributes its stored edge segment, except the
skipped first and last ones. -/

def resolveSegments (cache : PathCache) (path : Path NodeID)
    (skip_first skip_last : Bool) :
    Nat → Nat → AbstractPathImpl → Option AbstractPathImpl
  | _, 0, final => some final
  | i, count + 1, final =>
    if (skip_first ∧ i = 0) ∨ (skip_last ∧ i = path.len - 2) then
      resolveSegments cache path skip_first skip_last (i + 1) count final
    else
      match cache.nodes.getNode (path.index i) with
      | none => none
      | some a_node =>
        match alistGet a_node.edges (path.index (i + 1)) with
        | none => none
        | some seg =>
          match final.add_path_segment seg with
          | none => none
          | some final2 => resolveSegments cache path skip_first skip_last (i + 1) count final2

/-- The per-goal body of PathCache::resolve_paths (src/path_cache.rs
lines 1262-1333): skip the attachment prefix when the second abstract
node lies in the start chunk (recomputing the attachment to it), skip the
last abstract segment symmetrically at the goal, and stitch prefix,
edge segments and suffix. The start_path_map of the source only memoizes
the recomputed prefix, which is deterministic, and is not modelled. -/

def resolveOneGoal (cache : PathCache) (start : Point) (start_path : Option (Path Point))
    (goal : Point) (goal_path : Option (Path Point)) (path : Path NodeID)
    (get_cost : Point → Int) (fuel : Nat) : Option AbstractPathImpl :=
  let nb := cache.neighborhood
  let withStart : Option (Option (Path Point) × Bool) :=
    match start_path with
    | none => some (none, false)
    | some sp =>
      match cache.nodes.getNode (path.index 1) with
      | none => none
      | some after_node =>
        if cache.same_chunk start after_node.pos then
          match cache.get_chunk start with
          | none => none
          | some chunk =>
            match chunk.find_path nb start after_node.pos get_cost fuel with
            | none => none
            | some sp2 => some (some sp2, true)
        else some (some sp, false)
  match withStart with
  | none => none
  | some (start_path2, skip_first) =>
    match cache.nodes.getNode (path.index (path.len - 2)) with
    | none => none
    | some before_node =>
      let skip_last := goal_path.isSome && cache.same_chunk goal before_node.pos
      let final0 :=
        match start_path2 with
        | some sp => AbstractPathImpl.from_known_path_with nb sp
        | none => AbstractPathImpl.new_with nb start
      match resolveSegments cache path skip_first skip_last 0 (path.len - 1) final0 with
      | none => none
      | some final1 =>
        if skip_last then
          match cache.get_chunk before_node.pos with
          | none => none
          | some chunk =>
            match chunk.find_path nb before_node.pos goal get_cost fuel with
            | none => none
            | some gp2 => some (final1.add_path gp2)
        else
          match goal_path with
          | some gp => some (final1.add_path gp)
          | none => some final1

/-- PathCache::resolve_paths over the goal list: goals without an
abstract path are skipped. -/

def PathCache.resolve_paths (cache : PathCache) (start : Point)
    (start_path : Option (Path Point)) (get_cost : Point → Int) (fuel : Nat)
    (paths : List (NodeID × Path NodeID)) :
    List (Point × NodeID × Option (Path Point)) →
    Option (List (Point × AbstractPathImpl))
  | [] => some []
  | (goal, goal_id, goal_path) :: rest =>
    match alistGet paths goal_id with
    | none => cache.resolve_paths start start_path get_cost fuel paths rest
    | some path =>
      match resolveOneGoal cache start start_path goal goal_path path get_cost fuel with
      | none => none
      | some final =>
        match cache.resolve_paths start start_path get_cost fuel paths rest with
        | none => none
        | some restres => some ((goal, final) :: restres)

/-- PathCache::find_path (src/path_cache.rs lines 406-496): the wall
start guard, the degenerate same-point path, endpoint resolution with the
cave fallback, abstract-graph A*, the short-path grid fallback and the
final stitching. The timing instrumentation of the source is dropped;
aborts and exhausted fuel yield none. -/

def PathCache.find_path (cache : PathCache) (start goal : Point)
    (get_cost : Point → Int) (fuel : Nat) : Option AbstractPathImpl :=
  if get_cost start < 0 then none
  else
    let nb := cache.neighborhood
    if start = goal then
      some (AbstractPathImpl.from_known_path_with nb (Path.from_slice [start, start] 0))
    else
      match cache.find_nearest_node start get_cost false fuel with
      | none => none
      | some none =>
        match cache.get_chunk start with
        | none => none
        | some chunk =>
          (chunk.find_path nb start goal get_cost fuel).map
            (fun p => AbstractPathImpl.from_known_path_with nb p)
      | some (some (start_id, start_path)) =>
        match cache.find_nearest_node goal get_cost true fuel with
        | none => none
        | some none => none
        | some (some (goal_id, goal_path)) =>
          match graph_a_star_search cache.nodes start_id goal_id nb fuel with
          | none => none
          | some path =>
            if path.len = 2 ∨ (cache.config.a_star_fallback ∧ path.len ≤ 4) then
              (cache.grid_a_star start goal get_cost fuel).map
                (fun p => AbstractPathImpl.from_known_path_with nb p)
            else
              match cache.resolve_paths start start_path get_cost fuel
                  [(goal_id, path)] [(goal, goal_id, goal_path)] with
              | none => none
              | some results => results.head?.map (fun r => r.2)

/-- The 4 by 2 grid of the diagonal-seam scenario: with chunk size 2, the
only crossing of the middle seam is the diagonal step from (1,0) to
(2,1), which the side-node placement cannot see. -/

def seamGridCost : Point → Int := fun p =>
  if p = (2, 0) ∨ p = (1, 1) then -1 else 1

/-- Default-like configuration with chunk size 2. -/

def seamConfig : PathCacheConfig :=
  { chunk_size := 2, cache_paths := true, a_star_fallback := true, perfect_paths := false }

/-- The cache built over the seam grid with the Moore neighborhood. -/

def seamCache : Option PathCache :=
  PathCache.new_internal (4, 2) seamGridCost (MooreNeighborhood 4 2) seamConfig 400

/-- The 8 by 2 grid of the perfect-paths scenario: the straight crossing
of the first seam costs 10 (swamp at (1,1)), while the grid-optimal route
crosses that seam diagonally from (1,0) to (2,1) past the wall at (2,0). -/

def ppGridCost : Point → Int := fun p =>
  if p = (2, 0) then -1 else if p = (1, 1) then 10 else 1

/-- Configuration with perfect_paths enabled and chunk size 2. -/

def ppConfig : PathCacheConfig :=
  { chunk_size := 2, cache_paths := true, a_star_fallback := true, perfect_paths := true }

/-- The cache built over the perfect-paths grid with the Moore
neighborhood. -/

def ppCache : Option PathCache :=
  PathCache.new_internal (8, 2) ppGridCost (MooreNeighborhood 8 2) ppConfig 3000

/-- A trivial cache over the one-cell grid, for the wall-start witness. -/

def trivialCache : PathCache :=
  { width := 1, height := 1
    chunks := [{ pos := (0, 0), size := (1, 1), nodes := [], sides := fun _ => false }]
    num_chunks := (1, 1), nodes := NodeList.new, neighborhood := nbOne
    config := seamConfig }

lemma USIZE_pos : 0 < USIZE := by
  unfold USIZE
  exact Nat.pos_pow_of_pos 64 (by omega)

lemma wrapAdd_lt (a b : Nat) : wrapAdd a b < USIZE :=
  Nat.mod_lt _ USIZE_pos

lemma wrapSub_lt (a b : Nat) : wrapSub a b < USIZE :=
  Nat.mod_lt _ USIZE_pos

lemma wrapSub_wrapAdd_cancel (x b : Nat) (hx : x < USIZE) : wrapSub (wrapAdd x b) b = x := by
  unfold wrapSub wrapAdd
  have hdm := Nat.div_add_mod b USIZE
  have hmlt : b % USIZE < USIZE := Nat.mod_lt _ USIZE_pos
  rw [Nat.mod_add_mod]
  have hmul : USIZE * (b / USIZE + 1) = USIZE * (b / USIZE) + USIZE := by ring
  have hsum : (x + b) + (USIZE - b % USIZE) = x + USIZE * (b / USIZE + 1) := by omega
  rw [hsum, Nat.add_mul_mod_self_left, Nat.mod_eq_of_lt hx]

lemma wrapAdd_wrapSub_cancel (x b : Nat) (hx : x < USIZE) : wrapAdd (wrapSub x b) b = x := by
  unfold wrapSub wrapAdd
  have hdm := Nat.div_add_mod b USIZE
  have hmlt : b % USIZE < USIZE := Nat.mod_lt _ USIZE_pos
  rw [Nat.mod_add_mod]
  have hmul : USIZE * (b / USIZE + 1) = USIZE * (b / USIZE) + USIZE := by ring
  have hsum : (x + (USIZE - b % USIZE)) + b = x + USIZE * (b / USIZE + 1) := by omega
  rw [hsum, Nat.add_mul_mod_self_left, Nat.mod_eq_of_lt hx]

lemma alistGet_mem {K V : Type} [DecidableEq K] :
    ∀ (l : List (K × V)) (k : K) (v : V), alistGet l k = some v → (k, v) ∈ l := by
  intro l
  induction l with
  | nil => intro k v h; simp [alistGet] at h
  | cons hd tl ih =>
    intro k v h
    obtain ⟨k1, v1⟩ := hd
    simp only [alistGet] at h
    split at h
    · rename_i heq
      injection h with h2
      subst heq
      subst h2
      exact List.mem_cons_self _ _
    · exact List.mem_cons_of_mem _ (ih k v h)

lemma mem_alistInsert {K V : Type} [DecidableEq K] :
    ∀ (l : List (K × V)) (k : K) (v : V) (e : K × V),
      e ∈ alistInsert l k v → e = (k, v) ∨ e ∈ l := by
  intro l
  induction l with
  | nil => intro k v e h; simpa [alistInsert] using h
  | cons hd tl ih =>
    intro k v e h
    obtain ⟨k1, v1⟩ := hd
    simp only [alistInsert] at h
    split at h
    · rcases List.mem_cons.mp h with h' | h'
      · exact Or.inl h'
      · exact Or.inr (List.mem_cons_of_mem _ h')
    · rcases List.mem_cons.mp h with h' | h'
      · exact Or.inr (by simp [h'])
      · rcases ih k v e h' with h2 | h2
        · exact Or.inl h2
        · exact Or.inr (List.mem_cons_of_mem _ h2)

lemma alistGet_alistInsert_ne {K V : Type} [DecidableEq K] :
    ∀ (l : List (K × V)) (k k' : K) (v : V), k' ≠ k →
      alistGet (alistInsert l k v) k' = alistGet l k' := by
  intro l
  induction l with
  | nil =>
    intro k k' v hne
    simp only [alistInsert, alistGet]
    rw [if_neg (fun hh : k = k' => hne hh.symm)]
  | cons hd tl ih =>
    intro k k' v hne
    obtain ⟨k1, v1⟩ := hd
    simp only [alistInsert]
    split
    · rename_i heq
      simp only [alistGet]
      rw [if_neg (fun hh : k = k' => hne hh.symm),
        if_neg (fun hh : k1 = k' => hne (heq ▸ hh).symm)]
    · simp only [alistGet]
      split
      · rfl
      · exact ih k k' v hne

lemma mem_of_mem_setRemove {A : Type} [DecidableEq A] (l : List A) (x y : A)
    (h : x ∈ setRemove l y) : x ∈ l :=
  (List.mem_filter.mp h).1

lemma mem_setInsert_self {A : Type} [DecidableEq A] (l : List A) (x : A) :
    x ∈ setInsert l x := by
  unfold setInsert
  split
  · assumption
  · simp

lemma mem_setInsert_of_mem {A : Type} [DecidableEq A] (l : List A) (x y : A)
    (h : y ∈ l) : y ∈ setInsert l x := by
  unfold setInsert
  split
  · exact h
  · simp [h]

lemma mem_foldl_setInsert_of_mem_init {A : Type} [DecidableEq A] (l : List A) :
    ∀ (init : List A) (y : A), y ∈ init → y ∈ l.foldl setInsert init := by
  induction l with
  | nil => intro init y h; simpa using h
  | cons hd tl ih =>
    intro init y h
    exact ih _ _ (mem_setInsert_of_mem _ _ _ h)

lemma mem_foldl_setInsert {A : Type} [DecidableEq A] (l : List A) (x : A) (hx : x ∈ l) :
    ∀ init : List A, x ∈ l.foldl setInsert init := by
  induction l with
  | nil => cases hx
  | cons hd tl ih =>
    intro init
    rcases List.mem_cons.mp hx with h | h
    · subst h
      exact mem_foldl_setInsert_of_mem_init tl _ _ (mem_setInsert_self _ _)
    · exact ih h _

lemma mapM_mem {A B : Type} (f : A → Option B) :
    ∀ (l : List A) (ys : List B), l.mapM f = some ys → ∀ x ∈ l, ∃ y, f x = some y ∧ y ∈ ys := by
  intro l
  induction l with
  | nil => intro ys h x hx; cases hx
  | cons hd tl ih =>
    intro ys h x hx
    rw [List.mapM_cons] at h
    cases hfa : f hd with
    | none => rw [hfa] at h; simp at h
    | some y0 =>
      rw [hfa] at h
      cases hrest : tl.mapM f with
      | none => rw [hrest] at h; simp at h
      | some ys0 =>
        rw [hrest] at h
        have hys : ys = y0 :: ys0 := by
          simpa using h.symm
        rcases List.mem_cons.mp hx with hx0 | hx1
        · subst hx0
          exact ⟨y0, hfa, by simp [hys]⟩
        · rcases ih ys0 hrest x hx1 with ⟨y, hy, hmem⟩
          exact ⟨y, hy, by simp [hys, hmem]⟩

lemma gridAStarVisit_inv (nb : Neighborhood) (valid : Point → Bool) (get_cost : Point → Int)
    (goal current_id start : Point) (other_cost : Nat) (st : GridVisited × GridHeap)
    (other_id : Point) (hcur : 0 ≤ get_cost current_id)
    (hnb : other_id ∈ nb.get_all_neighbors current_id)
    (hst : ParentInv nb get_cost start st.1) :
    ParentInv nb get_cost start
      (gridAStarVisit nb valid get_cost goal current_id other_cost st other_id).1 := by
  have hins : ParentInv nb get_cost start
      (alistInsert st.1 other_id (other_cost, current_id)) := by
    intro e he
    rcases mem_alistInsert _ _ _ _ he with h | h
    · subst h
      exact ⟨hcur, Or.inr hnb⟩
    · exact hst e h
  unfold gridAStarVisit
  split
  · exact hst
  · split
    · exact hst
    · cases halist : alistGet st.1 other_id with
      | none => simpa [halist] using hins
      | some pc =>
        obtain ⟨prev_cost, prev_id⟩ := pc
        simp only [halist]
        split
        · exact hins
        · exact hst

lemma gridAStarFold_inv (nb : Neighborhood) (valid : Point → Bool) (get_cost : Point → Int)
    (goal current_id start : Point) (other_cost : Nat) :
    ∀ (l : List Point), (∀ x ∈ l, x ∈ nb.get_all_neighbors current_id) →
      0 ≤ get_cost current_id →
      ∀ st : GridVisited × GridHeap, ParentInv nb get_cost start st.1 →
        ParentInv nb get_cost start
          (l.foldl (gridAStarVisit nb valid get_cost goal current_id other_cost) st).1 := by
  intro l
  induction l with
  | nil => intro _ _ st hst; simpa using hst
  | cons hd tl ih =>
    intro hl hcur st hst
    simp only [List.foldl_cons]
    exact ih (fun x hx => hl x (List.mem_cons_of_mem _ hx)) hcur _
      (gridAStarVisit_inv nb valid get_cost goal current_id start other_cost st hd hcur
        (hl hd (List.mem_cons_self _ _)) hst)

lemma gridAStarLoop_inv (nb : Neighborhood) (valid : Point → Bool) (get_cost : Point → Int)
    (goal start : Point) :
    ∀ (fuel : Nat) (visited : GridVisited) (heap : GridHeap) (out : GridVisited),
      ParentInv nb get_cost start visited →
      gridAStarLoop nb valid get_cost goal fuel visited heap = some out →
      ParentInv nb get_cost start out := by
  intro fuel
  induction fuel with
  | zero => intro visited heap out _ h; cases h
  | succ n ih =>
    intro visited heap out hinv h
    rw [gridAStarLoop] at h
    cases hpop : popMinBy (fun e => e.2.2) heap with
    | none =>
      rw [hpop] at h
      cases h
      exact hinv
    | some popped =>
      obtain ⟨⟨current_id, current_cost, cf⟩, heap1⟩ := popped
      rw [hpop] at h
      dsimp only at h
      by_cases hgoal : current_id = goal
      · rw [if_pos hgoal] at h
        cases h
        exact hinv
      · rw [if_neg hgoal] at h
        cases halist : alistGet visited current_id with
        | none => rw [halist] at h; cases h
        | some bp =>
          obtain ⟨best, bprev⟩ := bp
          rw [halist] at h
          dsimp only at h
          by_cases hgt : current_cost > best
          · rw [if_pos hgt] at h
            exact ih visited heap1 out hinv h
          · rw [if_neg hgt] at h
            by_cases hlt : current_cost < best
            · rw [if_pos hlt] at h
              cases h
            · rw [if_neg hlt] at h
              by_cases hdelta : get_cost current_id < 0
              · rw [if_pos hdelta] at h
                exact ih visited heap1 out hinv h
              · rw [if_neg hdelta] at h
                refine ih _ _ out ?_ h
                exact gridAStarFold_inv nb valid get_cost goal current_id start
                  (current_cost + (get_cost current_id).toNat)
                  (nb.get_all_neighbors current_id) (fun x hx => hx)
                  (le_of_not_lt hdelta) _ hinv

lemma backtrack_chain {A : Type} [DecidableEq A] (visited : List (A × Nat × A)) (start : A)
    (g : A → Int) (hInv : ∀ e ∈ visited, 0 ≤ g e.2.2) :
    ∀ (fuel : Nat) (cur : A) (l : List A), backtrack visited start fuel cur = some l →
      ∃ rest, l = cur :: rest ∧ (∀ x ∈ rest, 0 ≤ g x) ∧ l.getLast? = some start := by
  intro fuel
  induction fuel with
  | zero => intro cur l h; cases h
  | succ n ih =>
    intro cur l h
    rw [backtrack] at h
    by_cases hcur : cur = start
    · rw [if_pos hcur] at h
      cases h
      exact ⟨[], by simp [hcur], by simp, by simp [hcur]⟩
    · rw [if_neg hcur] at h
      cases halist : alistGet visited cur with
      | none => rw [halist] at h; cases h
      | some cp =>
        obtain ⟨c, prev⟩ := cp
        rw [halist] at h
        dsimp only at h
        cases hrec : backtrack visited start n prev with
        | none => rw [hrec] at h; cases h
        | some l0 =>
          rw [hrec] at h
          injection h with h
          subst h
          rcases ih prev l0 hrec with ⟨rest0, hl0, hrest0, hlast0⟩
          have hprev : 0 ≤ g prev := (hInv _ (alistGet_mem _ _ _ halist))
          refine ⟨l0, rfl, ?_, ?_⟩
          · intro x hx
            rw [hl0] at hx
            rcases List.mem_cons.mp hx with h2 | h2
            · subst h2; exact hprev
            · exact hrest0 x h2
          · rcases l0 with _ | ⟨b, t⟩
            · cases hl0
            · rw [List.getLast?_cons_cons]
              exact hlast0

/-- C6: Reversal law: reversing a path segment twice with swapped endpoint
walk costs a and b restores the segment exactly, point content and cost
included; a single reversal keeps the point buffer unchanged and only flips
the reversal flag, with the cost adjusted by
reversed_cost = cost - start_walk_cost + end_walk_cost in usize arithmetic.
The hypotheses say that the stored cost and the walk costs are usize
values. -/
theorem C6_reversal_law (seg : PathSegment) (a b : Cost)
    (hc : seg.cost < USIZE) (ha : a < USIZE) (hb : b < USIZE) :
    (seg.reversed a b).reversed b a = seg ∧
    ∀ p : Path Point, (p.reversed a b).path = p.path ∧
      (p.reversed a b).is_reversed = !p.is_reversed := by
  refine ⟨?_, fun p => ⟨rfl, rfl⟩⟩
  cases seg with
  | known p =>
    obtain ⟨pp, pc, pr⟩ := p
    have hc2 : pc < USIZE := hc
    simp only [PathSegment.reversed, Path.reversed]
    rw [wrapSub_wrapAdd_cancel _ b (wrapSub_lt _ _), wrapAdd_wrapSub_cancel _ a hc2,
      Bool.not_not]
  | unknown st en c n =>
    have hc2 : c < USIZE := hc
    simp only [PathSegment.reversed]
    rw [wrapAdd_wrapSub_cancel _ a (wrapAdd_lt _ _), wrapSub_wrapAdd_cancel _ b hc2]

/-- Witness for C6 at a concrete summary segment with asymmetric walk
costs 1 and 5. -/
theorem C6_reversal_law_witness :
    (PathSegment.unknown (0, 0) (1, 1) 3 2).cost < USIZE ∧ (1 : Cost) < USIZE ∧
    (5 : Cost) < USIZE ∧
    ((PathSegment.unknown (0, 0) (1, 1) 3 2).reversed 1 5).reversed 5 1 =
      PathSegment.unknown (0, 0) (1, 1) 3 2 :=
  ⟨by decide, by decide, by decide,
    (C6_reversal_law (PathSegment.unknown (0, 0) (1, 1) 3 2) 1 5 (by decide) (by decide)
      (by decide)).1⟩

/-- C4: grid A* treats negative-cost cells as impassable, except that the
goal itself may be a wall: every returned path ends at the goal cell, every
cell of the path except possibly the final one has non-negative cost, and
when the goal is a wall the cell preceding it in the path is a walkable
cell that has the goal among its neighbors. -/
theorem C4_wall_goal_soundness (nb : Neighborhood) (valid : Point → Bool)
    (get_cost : Point → Int) (start goal : Point) (fuel : Nat) (p : Path Point)
    (h : a_star_search nb valid get_cost start goal fuel = some p) :
    (∀ q ∈ p.path.dropLast, 0 ≤ get_cost q) ∧
    p.path.getLast? = some goal ∧
    (get_cost goal < 0 →
      ∃ w, p.path.dropLast.getLast? = some w ∧ 0 ≤ get_cost w ∧
        goal ∈ nb.get_all_neighbors w) := by
  unfold a_star_search at h
  by_cases hs : get_cost start < 0
  · rw [if_pos hs] at h; cases h
  · rw [if_neg hs] at h
    by_cases hsg : start = goal
    · rw [if_pos hsg] at h
      injection h with h
      subst h
      refine ⟨?_, ?_, ?_⟩
      · intro q hq
        have hdl : (Path.from_slice [start, start] 0).path.dropLast = [start] := rfl
        rw [hdl] at hq
        rcases List.mem_singleton.mp hq with h2
        subst h2
        exact le_of_not_lt hs
      · show List.getLast? [start, start] = some goal
        rw [hsg]
        rfl
      · intro hw
        rw [← hsg] at hw
        exact absurd hw hs
    · rw [if_neg hsg] at h
      cases hloop : gridAStarLoop nb valid get_cost goal fuel [(start, 0, start)]
          [(start, 0, 0)] with
      | none => rw [hloop] at h; cases h
      | some visited =>
        rw [hloop] at h
        dsimp only at h
        cases hg : alistGet visited goal with
        | none => rw [hg] at h; cases h
        | some gp =>
          obtain ⟨goal_cost, gparent⟩ := gp
          rw [hg] at h
          dsimp only at h
          cases hbt : backtrack visited start (visited.length + 1) goal with
          | none => rw [hbt] at h; cases h
          | some chain =>
            rw [hbt] at h
            injection h with h
            subst h
            have hinv0 : ParentInv nb get_cost start [(start, 0, start)] := by
              intro e he
              rcases List.mem_singleton.mp he with h2
              subst h2
              exact ⟨le_of_not_lt hs, Or.inl rfl⟩
            have hinv := gridAStarLoop_inv nb valid get_cost goal start fuel _ _ _ hinv0 hloop
            rcases backtrack_chain visited start get_cost (fun e he => (hinv e he).1)
              _ _ _ hbt with ⟨rest, hchainEq, hrest, hlast⟩
            subst hchainEq
            refine ⟨?_, ?_, ?_⟩
            · intro q hq
              have hpath : (Path.new (goal :: rest).reverse goal_cost).path
                  = rest.reverse ++ [goal] := by
                show (goal :: rest).reverse = rest.reverse ++ [goal]
                rw [List.reverse_cons]
              rw [hpath, List.dropLast_concat] at hq
              exact hrest q (List.mem_reverse.mp hq)
            · show ((goal :: rest).reverse).getLast? = some goal
              rw [List.reverse_cons, List.getLast?_concat]
            · intro hwall
              have hgs : ¬ goal = start := fun hh => hsg hh.symm
              have hentry := hinv _ (alistGet_mem _ _ _ hg)
              have hgne : goal ∈ nb.get_all_neighbors gparent := by
                rcases hentry.2 with h2 | h2
                · exact absurd h2 hgs
                · exact h2
              rw [backtrack, if_neg hgs, hg] at hbt
              dsimp only at hbt
              cases hrec : backtrack visited start visited.length gparent with
              | none => rw [hrec] at hbt; cases hbt
              | some l0 =>
                rw [hrec] at hbt
                injection hbt with hbt
                have hl0 : l0 = rest := (List.cons.injEq _ _ _ _).mp hbt |>.2
                rcases backtrack_chain visited start get_cost (fun e he => (hinv e he).1)
                  _ _ _ hrec with ⟨rest1, hl0eq, _, _⟩
                refine ⟨gparent, ?_, hentry.1, hgne⟩
                have hpath : (Path.new (goal :: rest).reverse goal_cost).path
                    = rest.reverse ++ [goal] := by
                  show (goal :: rest).reverse = rest.reverse ++ [goal]
                  rw [List.reverse_cons]
                rw [hpath, List.dropLast_concat, ← hl0, hl0eq, List.reverse_cons,
                  List.getLast?_concat]

/-- Witness for C4: a concrete run on the 2 by 2 grid with a wall goal. -/
theorem C4_wall_goal_soundness_witness :
    a_star_search (ManhattanNeighborhood 2 2) (fun _ => true) wallGoalCost (0, 0) (1, 1) 30
      = some wallGoalPath ∧
    ((∀ q ∈ wallGoalPath.path.dropLast, 0 ≤ wallGoalCost q) ∧
    wallGoalPath.path.getLast? = some (1, 1) ∧
    (wallGoalCost (1, 1) < 0 →
      ∃ w, wallGoalPath.path.dropLast.getLast? = some w ∧ 0 ≤ wallGoalCost w ∧
        (1, 1) ∈ (ManhattanNeighborhood 2 2).get_all_neighbors w)) :=
  ⟨by decide,
    C4_wall_goal_soundness (ManhattanNeighborhood 2 2) (fun _ => true) wallGoalCost
      (0, 0) (1, 1) 30 wallGoalPath (by decide)⟩

lemma not_mem_setRemove_self {A : Type} [DecidableEq A] (l : List A) (x : A) :
    x ∉ setRemove l x := by
  intro h
  have h2 := (List.mem_filter.mp h).2
  simp at h2

lemma gridDijkstraLoop_goalcost (nb : Neighborhood) (valid : Point → Bool)
    (get_cost : Point → Int) (oc : Bool) (s : Point) :
    ∀ (fuel : Nat) (visited : GridVisited) (heap : List (Point × Nat))
      (remaining : List Point) (gc : List (Point × Nat))
      (out : GridVisited × List (Point × Nat)),
      s ∉ remaining → alistGet gc s = some 0 →
      gridDijkstraLoop nb valid get_cost oc fuel visited heap remaining gc = some out →
      alistGet out.2 s = some 0 := by
  intro fuel
  induction fuel with
  | zero => intro _ _ _ _ _ _ _ h; cases h
  | succ n ih =>
    intro visited heap remaining gc out hs hgc h
    rw [gridDijkstraLoop] at h
    cases hpop : popMinBy (fun e => e.2) heap with
    | none =>
      rw [hpop] at h
      cases h
      exact hgc
    | some popped =>
      obtain ⟨⟨current_id, current_cost⟩, heap1⟩ := popped
      rw [hpop] at h
      dsimp only at h
      cases halist : alistGet visited current_id with
      | none => rw [halist] at h; cases h
      | some bp =>
        obtain ⟨best, bprev⟩ := bp
        rw [halist] at h
        dsimp only at h
        by_cases hgt : current_cost > best
        · rw [if_pos hgt] at h
          exact ih _ _ _ _ _ hs hgc h
        · rw [if_neg hgt] at h
          by_cases hlt : current_cost < best
          · rw [if_pos hlt] at h; cases h
          · rw [if_neg hlt] at h
            by_cases hmem : current_id ∈ remaining
            · rw [if_pos hmem] at h
              have hne : current_id ≠ s := fun hh => hs (hh ▸ hmem)
              have hs1 : s ∉ setRemove remaining current_id :=
                fun hmem2 => hs (mem_of_mem_setRemove _ _ _ hmem2)
              have hgc1 : alistGet (alistInsert gc current_id current_cost) s = some 0 := by
                rw [alistGet_alistInsert_ne _ _ _ _ (fun hh => hne hh.symm)]
                exact hgc
              by_cases hbreak : (oc || (setRemove remaining current_id).isEmpty) = true
              · rw [if_pos hbreak] at h
                cases h
                exact hgc1
              · rw [if_neg hbreak] at h
                by_cases hdelta : get_cost current_id < 0
                · rw [if_pos hdelta] at h
                  exact ih _ _ _ _ _ hs1 hgc1 h
                · rw [if_neg hdelta] at h
                  exact ih _ _ _ _ _ hs1 hgc1 h
            · rw [if_neg hmem] at h
              by_cases hdelta : get_cost current_id < 0
              · rw [if_pos hdelta] at h
                exact ih _ _ _ _ _ hs hgc h
              · rw [if_neg hdelta] at h
                exact ih _ _ _ _ _ hs hgc h

lemma gridDijkstraLoop_init_start (nb : Neighborhood) (valid : Point → Bool)
    (get_cost : Point → Int) (oc : Bool) (start : Point) (R : List Point)
    (hmem0 : start ∈ R) :
    ∀ (fuel : Nat) (out : GridVisited × List (Point × Nat)),
      gridDijkstraLoop nb valid get_cost oc fuel [(start, 0, start)] [(start, 0)] R []
        = some out →
      alistGet out.2 start = some 0 := by
  intro fuel out h
  cases fuel with
  | zero => cases h
  | succ n =>
    rw [gridDijkstraLoop] at h
    have hpop : popMinBy (fun e : Point × Nat => e.2) [(start, 0)]
        = some ((start, 0), []) := rfl
    rw [hpop] at h
    dsimp only at h
    have hget : alistGet [(start, (0 : Nat), start)] start = some (0, start) := by
      simp [alistGet]
    rw [hget] at h
    dsimp only at h
    rw [if_neg (lt_irrefl 0), if_neg (lt_irrefl 0), if_pos hmem0] at h
    have hgc1 : alistGet (alistInsert ([] : List (Point × Nat)) start 0) start = some 0 := by
      simp [alistInsert, alistGet]
    by_cases hbreak : (oc || (setRemove R start).isEmpty) = true
    · rw [if_pos hbreak] at h
      cases h
      exact hgc1
    · rw [if_neg hbreak] at h
      have hs1 : start ∉ setRemove R start := not_mem_setRemove_self R start
      by_cases hdelta : get_cost start < 0
      · rw [if_pos hdelta] at h
        exact gridDijkstraLoop_goalcost nb valid get_cost oc start _ _ _ _ _ _ hs1 hgc1 h
      · rw [if_neg hdelta] at h
        exact gridDijkstraLoop_goalcost nb valid get_cost oc start _ _ _ _ _ _ hs1 hgc1 h

/-- C5 amended: with the start equal to a goal, grid A* returns the
degenerate two-point path [start, start] of cost 0 (its early return;
the start must not be a wall because of the wall-start guard), while grid
Dijkstra has no such early return: it records for that goal the one-point
path [start] of cost 0. -/
theorem C5_degenerate_paths (nb : Neighborhood) (valid : Point → Bool)
    (get_cost : Point → Int) (start : Point) (goals : List Point)
    (oc : Bool) (fuel : Nat) (m : List (Point × Path Point))
    (hstart : 0 ≤ get_cost start) (hgoal : start ∈ goals)
    (hdij : dijkstra_search nb valid get_cost start goals oc fuel = some m) :
    a_star_search nb valid get_cost start start fuel
      = some (Path.from_slice [start, start] 0) ∧
    (start, Path.new [start] 0) ∈ m := by
  constructor
  · unfold a_star_search
    rw [if_neg (not_lt_of_le hstart), if_pos rfl]
  · unfold dijkstra_search at hdij
    dsimp only at hdij
    cases hloop : gridDijkstraLoop nb valid get_cost oc fuel [(start, 0, start)]
        [(start, 0)] (goals.foldl setInsert []) [] with
    | none => rw [hloop] at hdij; cases hdij
    | some out =>
      obtain ⟨vis, gcs⟩ := out
      rw [hloop] at hdij
      dsimp only at hdij
      have hgcs : alistGet gcs start = some 0 :=
        gridDijkstraLoop_init_start nb valid get_cost oc start _
          (mem_foldl_setInsert goals start hgoal []) fuel _ hloop
      obtain ⟨y, hy, hmem⟩ := mapM_mem _ _ _ hdij (start, 0) (alistGet_mem _ _ _ hgcs)
      rw [backtrack, if_pos rfl] at hy
      injection hy with hy
      rw [← hy] at hmem
      exact hmem

/-- C5 counterexample to the claim as stated: on a one-cell grid with the
start among the goals, grid Dijkstra returns the one-point path [start] of
cost 0 and length 1, not a two-point path. -/
theorem C5_degenerate_counterexample :
    dijkstra_search nbOne (fun _ => true) (fun _ => 1) (0, 0) [(0, 0)] false 10
      = some [((0, 0), Path.new [(0, 0)] 0)] ∧
    (Path.new [((0, 0) : Point)] 0).len ≠ 2 :=
  ⟨by decide, by decide⟩

/-- Witness for C5 on the one-cell grid. -/
theorem C5_degenerate_paths_witness :
    (0 : Int) ≤ 1 ∧ ((0, 0) : Point) ∈ [((0, 0) : Point)] ∧
    a_star_search nbOne (fun _ => true) (fun _ => 1) (0, 0) (0, 0) 10
      = some (Path.from_slice [(0, 0), (0, 0)] 0) ∧
    ((0, 0), Path.new [(0, 0)] 0) ∈ [(((0, 0) : Point), Path.new [((0, 0) : Point)] 0)] :=
  ⟨by decide, by decide,
    (C5_degenerate_paths nbOne (fun _ => true) (fun _ => 1) (0, 0) [(0, 0)] false 10
      [((0, 0), Path.new [(0, 0)] 0)] (by decide) (by decide) (by decide)).1,
    (C5_degenerate_paths nbOne (fun _ => true) (fun _ => 1) (0, 0) [(0, 0)] false 10
      [((0, 0), Path.new [(0, 0)] 0)] (by decide) (by decide) (by decide)).2⟩

lemma alistGet_alistInsert_self {K V : Type} [DecidableEq K] :
    ∀ (l : List (K × V)) (k : K) (v : V), alistGet (alistInsert l k v) k = some v := by
  intro l
  induction l with
  | nil => intro k v; simp [alistInsert, alistGet]
  | cons hd tl ih =>
    intro k v
    obtain ⟨k1, v1⟩ := hd
    simp only [alistInsert]
    split
    · simp [alistGet]
    · rename_i hne
      simp only [alistGet]
      rw [if_neg hne]
      exact ih k v

lemma alistGet_map_update_self {K V : Type} [DecidableEq K] (f : V → V) :
    ∀ (l : List (K × V)) (k : K),
      alistGet (l.map (fun e => if e.1 = k then (e.1, f e.2) else e)) k
        = (alistGet l k).map f := by
  intro l
  induction l with
  | nil => intro k; simp [alistGet]
  | cons hd tl ih =>
    intro k
    obtain ⟨k1, v1⟩ := hd
    simp only [List.map_cons]
    by_cases hk : k1 = k
    · subst hk
      rw [if_pos rfl]
      simp [alistGet]
    · rw [if_neg hk]
      simp only [alistGet]
      rw [if_neg hk, if_neg hk]
      exact ih k

lemma alistGet_map_update_ne {K V : Type} [DecidableEq K] (f : V → V) :
    ∀ (l : List (K × V)) (k j : K), j ≠ k →
      alistGet (l.map (fun e => if e.1 = j then (e.1, f e.2) else e)) k = alistGet l k := by
  intro l
  induction l with
  | nil => intro k j _; simp [alistGet]
  | cons hd tl ih =>
    intro k j hne
    obtain ⟨k1, v1⟩ := hd
    simp only [List.map_cons]
    by_cases hj : k1 = j
    · subst hj
      rw [if_pos rfl]
      simp only [alistGet]
      rw [if_neg (fun hh : k1 = k => hne hh), if_neg (fun hh : k1 = k => hne hh)]
      exact ih k k1 hne
    · rw [if_neg hj]
      simp only [alistGet]
      split
      · rfl
      · exact ih k j hne

lemma NodeList.getNode_updateNode_self (nl : NodeList) (id : NodeID) (f : Node → Node) :
    (nl.updateNode id f).getNode id = (nl.getNode id).map f :=
  alistGet_map_update_self f nl.nodes id

lemma NodeList.getNode_updateNode_ne (nl : NodeList) (id j : NodeID) (f : Node → Node)
    (hne : j ≠ id) : (nl.updateNode j f).getNode id = nl.getNode id :=
  alistGet_map_update_ne f nl.nodes id j hne

/-- C8 counterexample to the claim as stated: add_edge(0, 1, segment of
cost 3) on nodes of walk costs 1 and 5 stores on node 1 a reciprocal edge
of cost 3 - 1 + 5 = 7, not an edge of equal cost 3 (the forward edge on
node 0 keeps cost 3). -/
theorem C8_reciprocal_cost_counterexample :
    ((nlC8.add_edge 0 1 segC8).bind (fun nl => nl.getNode 1)).map
      (fun n => (alistGet n.edges 0).map PathSegment.cost) = some (some 7) ∧
    ((nlC8.add_edge 0 1 segC8).bind (fun nl => nl.getNode 0)).map
      (fun n => (alistGet n.edges 1).map PathSegment.cost) = some (some 3) ∧
    (7 : Cost) ≠ 3 :=
  ⟨by decide, by decide, by decide⟩

/-- C8 amended: NodeList::add_edge installs on the target node a
reciprocal incoming edge back to the source carrying the reversed segment,
whose cost is cost - walk_cost(src) + walk_cost(target) in usize
arithmetic (equal to the original cost only when the walk costs agree),
and stores the segment itself on the source; when the source already has
an edge to the target of equal cost, the call is a no-op that leaves the
node list unchanged. (NodeMap::add_edge of src/graph/node_map.rs installs
unconditionally, with no equal-cost check.) -/
theorem C8_add_edge_amended (nl : NodeList) (src target : NodeID) (path : PathSegment)
    (src_node target_node : Node)
    (hsrc : nl.getNode src = some src_node) (htgt : nl.getNode target = some target_node)
    (hne : src ≠ target) :
    ((∀ ex, alistGet src_node.edges target = some ex → ex.cost ≠ path.cost) →
      ∃ nl2, nl.add_edge src target path = some nl2 ∧
        (nl2.getNode target).map (fun n => alistGet n.edges src)
          = some (some (path.reversed src_node.walk_cost target_node.walk_cost)) ∧
        (nl2.getNode src).map (fun n => alistGet n.edges target) = some (some path)) ∧
    (∀ ex, alistGet src_node.edges target = some ex → ex.cost = path.cost →
      nl.add_edge src target path = some nl) := by
  have hinstall : ∃ nl2, nl.add_edge_install src target path src_node = some nl2 ∧
      (nl2.getNode target).map (fun n => alistGet n.edges src)
        = some (some (path.reversed src_node.walk_cost target_node.walk_cost)) ∧
      (nl2.getNode src).map (fun n => alistGet n.edges target) = some (some path) := by
    unfold NodeList.add_edge_install
    rw [htgt]
    refine ⟨_, rfl, ?_, ?_⟩
    · rw [NodeList.getNode_updateNode_ne _ _ _ _ hne,
        NodeList.getNode_updateNode_self, htgt]
      simp only [Option.map_some']
      rw [alistGet_alistInsert_self]
    · rw [NodeList.getNode_updateNode_self,
        NodeList.getNode_updateNode_ne _ _ _ _ (fun hh => hne hh.symm), hsrc]
      simp only [Option.map_some']
      rw [alistGet_alistInsert_self]
  constructor
  · intro hno
    unfold NodeList.add_edge
    rw [hsrc]
    dsimp only
    cases hex : alistGet src_node.edges target with
    | none => exact hinstall
    | some ex =>
      dsimp only
      rw [if_neg (hno ex hex)]
      exact hinstall
  · intro ex hex heq
    unfold NodeList.add_edge
    rw [hsrc]
    dsimp only
    rw [hex]
    dsimp only
    rw [if_pos heq]

/-- Witness for C8 at the concrete two-node list, with no existing edge. -/
theorem C8_add_edge_amended_witness :
    nlC8.getNode 0 = some { pos := (0, 0), walk_cost := 1, edges := [] } ∧
    nlC8.getNode 1 = some { pos := (1, 1), walk_cost := 5, edges := [] } ∧
    (0 : NodeID) ≠ 1 ∧
    (∃ nl2, nlC8.add_edge 0 1 segC8 = some nl2 ∧
      (nl2.getNode 1).map (fun n => alistGet n.edges 0) = some (some (segC8.reversed 1 5)) ∧
      (nl2.getNode 0).map (fun n => alistGet n.edges 1) = some (some segC8)) :=
  ⟨by decide, by decide, by decide,
    (C8_add_edge_amended nlC8 0 1 segC8 { pos := (0, 0), walk_cost := 1, edges := [] }
      { pos := (1, 1), walk_cost := 5, edges := [] } (by decide) (by decide)
      (by decide)).1 (fun ex h => by cases h)⟩

/-- C7 counterexample to the claim as stated: on the two-segment Known
path apC7 with junction cell (1, 0), safe_next crosses the boundary to
cursor (segment 1, offset 0), not (segment 1, offset 1), and the second
safe_next call yields the junction cell (1, 0) a second time; next()
crosses to (segment 1, offset 1) and yields (2, 0). -/
theorem C7_safe_next_counterexample :
    (AbstractPathImpl.safe_next (fun _ => 1) 10 apC7).point? = some (1, 0) ∧
    ((AbstractPathImpl.safe_next (fun _ => 1) 10 apC7).state?.map
      (fun ap => ap.current_index)) = some (1, 0) ∧
    (((AbstractPathImpl.safe_next (fun _ => 1) 10 apC7).state?.map
      (AbstractPathImpl.safe_next (fun _ => 1) 10)).map NextRes.point?)
      = some (some (1, 0)) ∧
    ((AbstractPathImpl.next apC7).state?.map (fun ap => ap.current_index)) = some (1, 1) ∧
    (((AbstractPathImpl.next apC7).state?.map AbstractPathImpl.next).map NextRes.point?)
      = some (some (2, 0)) :=
  ⟨by decide, by decide, by decide, by decide, by decide⟩

/-- C7 amended: next() advances one grid cell at a time and, when it
crosses a segment boundary, moves the cursor to (segment_index + 1, 1),
skipping the junction cell shared with the next segment; safe_next()
moves the cursor to (segment_index + 1, 0) instead, so it skips the first
cell of the next segment only when that segment is Unknown (its
rematerialization resets the offset to 1), and yields the junction cell a
second time when the next segment is already Known. -/
theorem C7_next_boundary_amended (ap : AbstractPathImpl) (i j : Nat) (pth : Path Point)
    (get_cost : Point → Int) (fuel : Nat)
    (hcur : ap.current_index = (i, j)) (hseg : ap.path.get? i = some (.known pth))
    (hend : j + 1 ≥ pth.len) :
    AbstractPathImpl.next ap
      = NextRes.yielded (pth.index j) { ap with current_index := (i + 1, 1) } ∧
    AbstractPathImpl.safe_next get_cost fuel ap
      = NextRes.yielded (pth.index j) { ap with current_index := (i + 1, 0) } := by
  have hi : ¬ ap.path.length ≤ i := by
    intro hle
    rw [List.get?_eq_none.mpr hle] at hseg
    cases hseg
  constructor
  · unfold AbstractPathImpl.next
    rw [hcur]
    dsimp only
    rw [if_neg hi, hseg]
    dsimp only
    rw [if_pos hend]
  · unfold AbstractPathImpl.safe_next
    rw [hcur]
    dsimp only
    rw [if_neg hi, hseg]
    dsimp only
    unfold AbstractPathImpl.safeNextKnown
    rw [hcur]
    dsimp only
    rw [if_pos hend]

/-- Witness for the amended C7 at the first boundary of apC7. -/
theorem C7_next_boundary_amended_witness :
    apC7.current_index = (0, 1) ∧
    apC7.path.get? 0 = some (.known (Path.new [(0, 0), (1, 0)] 1)) ∧
    1 + 1 ≥ (Path.new [((0, 0) : Point), (1, 0)] 1).len ∧
    AbstractPathImpl.next apC7
      = NextRes.yielded ((Path.new [((0, 0) : Point), (1, 0)] 1).index 1)
          { apC7 with current_index := (0 + 1, 1) } ∧
    AbstractPathImpl.safe_next (fun _ => 1) 10 apC7
      = NextRes.yielded ((Path.new [((0, 0) : Point), (1, 0)] 1).index 1)
          { apC7 with current_index := (0 + 1, 0) } :=
  ⟨by decide, by decide, by decide,
    (C7_next_boundary_amended apC7 0 1 (Path.new [(0, 0), (1, 0)] 1) (fun _ => 1) 10
      (by decide) (by decide) (by decide)).1,
    (C7_next_boundary_amended apC7 0 1 (Path.new [(0, 0), (1, 0)] 1) (fun _ => 1) 10
      (by decide) (by decide) (by decide)).2⟩

/-- C10: the iteration cursor of an abstract path is initialized to
(segment 0, offset 1): the first yielded point of next() on a path built
from a known path is the second cell of the path, the first step away from
the start, and differs from the start cell whenever the path does not
immediately repeat it; the anchored constructor initializes the cursor the
same way. -/
theorem C10_iteration_skips_start (p : Path Point) (hlen : 2 ≤ p.len)
    (hne : p.index 1 ≠ p.index 0) :
    (AbstractPathImpl.new (p.index 0)).current_index = (0, 1) ∧
    (AbstractPathImpl.from_known_path p).current_index = (0, 1) ∧
    ∃ ap2, AbstractPathImpl.next (AbstractPathImpl.from_known_path p)
        = NextRes.yielded (p.index 1) ap2 ∧ p.index 1 ≠ p.index 0 := by
  refine ⟨rfl, rfl, ?_⟩
  unfold AbstractPathImpl.next
  dsimp only [AbstractPathImpl.from_known_path]
  rw [if_neg (by simp)]
  dsimp only [List.get?]
  exact ⟨_, rfl, hne⟩

/-- Witness for C10 on the crate doc example prefix: the path from (0, 0)
whose first step is (0, 1). -/
theorem C10_iteration_skips_start_witness :
    2 ≤ (Path.new [((0, 0) : Point), (0, 1), (0, 2)] 2).len ∧
    (Path.new [((0, 0) : Point), (0, 1), (0, 2)] 2).index 1
      ≠ (Path.new [((0, 0) : Point), (0, 1), (0, 2)] 2).index 0 ∧
    (∃ ap2, AbstractPathImpl.next
        (AbstractPathImpl.from_known_path (Path.new [((0, 0) : Point), (0, 1), (0, 2)] 2))
        = NextRes.yielded ((Path.new [((0, 0) : Point), (0, 1), (0, 2)] 2).index 1) ap2 ∧
      (Path.new [((0, 0) : Point), (0, 1), (0, 2)] 2).index 1
        ≠ (Path.new [((0, 0) : Point), (0, 1), (0, 2)] 2).index 0) :=
  ⟨by decide, by decide,
    (C10_iteration_skips_start (Path.new [(0, 0), (0, 1), (0, 2)] 2) (by decide)
      (by decide)).2.2⟩

/-- Claim C9: for every cache and cost function, find_path called with a
start cell whose cost is negative (a wall) returns none rather than a
path or an abort; the guard at src/path_cache.rs lines 415-418 fires
before any other work. -/
theorem C9_invalid_start (cache : PathCache) (start goal : Point)
    (get_cost : Point → Int) (fuel : Nat) (h : get_cost start < 0) :
    cache.find_path start goal get_cost fuel = none := by
  unfold PathCache.find_path
  rw [if_pos h]

/-- Witness for C9 at a concrete cache, points and cost function. -/
theorem C9_invalid_start_witness :
    (fun _ : Point => (-1 : Int)) (0, 0) < 0 ∧
      trivialCache.find_path (0, 0) (0, 0) (fun _ : Point => (-1 : Int)) 5 = none :=
  ⟨by decide,
    C9_invalid_start trivialCache (0, 0) (0, 0) (fun _ : Point => (-1 : Int)) 5 (by decide)⟩

/-- Claim C1: completeness of connectivity fails. On the 4 by 2 seam grid
with chunk size 2 and the Moore neighborhood, grid-level A* finds a path
from (0,0) to (3,1), the cache builds successfully, yet find_path returns
none: calculate_side_nodes classifies a strip cell solid from its own and
straight-mirror costs alone, so a chunk seam crossed only by a diagonal
step gets no entrance node and both chunks end up without nodes. -/
theorem C1_completeness_refuted :
    (a_star_search (MooreNeighborhood 4 2) (fun _ => true) seamGridCost (0, 0) (3, 1)
        400).isSome = true ∧
    seamCache.isSome = true ∧
    (seamCache.bind (fun c => c.find_path (0, 0) (3, 1) seamGridCost 400)).isSome
      = false := by
  exact ⟨by decide, by decide, by decide⟩

/-- Claim C3: the approximation bound fails for perfect_paths = true. On
the 8 by 2 grid with the swamp at (1,1) and the wall at (2,0), the cached
answer from (0,0) to (7,0) costs 16 while the optimal grid A* path costs
7, crossing the first seam diagonally from (1,0) to (2,1); the entrance
placement of calculate_side_nodes cannot represent that crossing even
with perfect_paths. -/
theorem C3_perfect_paths_refuted :
    (ppCache.bind (fun c => c.find_path (0, 0) (7, 0) ppGridCost 3000)).map
        (fun ap => ap.total_cost) = some 16 ∧
    (a_star_search (MooreNeighborhood 8 2) (fun _ => true) ppGridCost (0, 0) (7, 0)
        3000).map (fun p => p.cost) = some 7 ∧
    (16 : Nat) ≠ 7 := by
  exact ⟨by decide, by decide, by decide⟩

end HPA
